import Mathlib

/-!
Verification of the bigbrother recording/session engine and recall pipeline.

Shallow embedding of `src/bigbrother/sink.py` (class `BigBrotherSink`:
`write`, `cleanup`, `cleanup_one`), the recall query part of
`src/bigbrother/cog.py` (`BigBrother.holdup`), and the schema of
`src/bigbrother/sql.py`.

Modelling decisions, all noted on the definitions they concern:
* Machine state (the SQL database reached through the `AsyncEngine`, the
  per-sink dictionaries `_can_listen_user_cache`, `audio_data`, `_sessions`)
  is threaded explicitly through a `SinkState` record.  Python `dict`s are
  association lists with first-match lookup; the engine never creates a
  duplicate key.
* The cross-thread `run_coroutine_threadsafe(...).result()` bridge blocks the
  caller until the coroutine finishes, so each storage round trip is embedded
  as a synchronous function on the database component.
* Timestamps (`datetime.utcnow()`) are a monotone counter, incremented each
  time the clock is read.
* Storage side effects that the claims count (user lookups and inserts,
  session inserts and finalizing updates, firing of `cleanup_event`) are
  recorded in an `Op` trace.
-/

namespace BigBrother

/-- Raw byte strings (PCM frames, payloads) as lists of byte values. -/
abbrev Bytes := List Nat

/-- `LeaveReason` enumeration from `sql.py`. -/
inductive LeaveReason
  | NATURAL
  | BOT_DISCONNECTED
  | CONTINUED
  deriving DecidableEq, Repr

/-- Storage operations issued by the engine, as recorded in the trace:
a `users` row lookup, a `users` default-allow insert, a `sessions` open
insert, a `sessions` finalizing update, and the setting of the
`cleanup_event`. -/
inductive Op
  | userLookup (u : Nat)
  | userInsert (u : Nat)
  | sessionInsert (sid : Nat)
  | sessionUpdate (sid : Option Nat)
  | eventSet
  deriving DecidableEq, Repr

/-- One row of the `sessions` table (`sql.py`, class `Sessions`):
`ended_at`, `data` and `leave_reason` are nullable. -/
structure SessionRow where
  id : Nat
  channel_id : Nat
  user_id : Nat
  started_at : Nat
  ended_at : Option Nat
  data : Option Bytes
  leave_reason : Option LeaveReason
  deriving DecidableEq, Repr

/-- One row of the `users` table (`sql.py`, class `Users`). -/
structure UserRow where
  user_id : Nat
  can_listen : Bool
  deriving DecidableEq, Repr

/-- The durable store: `sessions` rows in insertion order, `users` rows,
and the autoincrement counter supplying `inserted_primary_key`. -/
structure DB where
  sessions : List SessionRow
  users : List UserRow
  nextId : Nat
  deriving DecidableEq, Repr

/-- State of one `BigBrotherSink` instance together with the database.
`maxFileLen` is `_max_file_len` after `init` resolved the `MISSING`
default (`bitrate * 30`); `vc` records whether `self.vc` is non-`None`;
`eventCount` counts how often `cleanup_event.set()` ran. -/
structure SinkState where
  db : DB
  cache : List (Nat × Bool)
  audioData : List (Nat × Bytes)
  sessionsMap : List (Nat × Nat)
  maxFileLen : Option Nat
  vc : Bool
  channelId : Nat
  now : Nat
  finished : Bool
  eventCount : Nat
  trace : List Op
  deriving DecidableEq, Repr

/-! ### Association lists standing in for Python dicts -/

/-- First-match lookup, `d.get(k)` / `k in d`. -/
def alookup {α : Type} : List (Nat × α) → Nat → Option α
  | [], _ => none
  | p :: r, k => if p.1 = k then some p.2 else alookup r k

/-- `d[k] = v`: replace the value of an existing key in place, append a
fresh key at the end (Python dicts preserve insertion order). -/
def aset {α : Type} : List (Nat × α) → Nat → α → List (Nat × α)
  | [], k, v => [(k, v)]
  | p :: r, k, v => if p.1 = k then (k, v) :: r else p :: aset r k v

/-- `d.pop(k, None)`: remove the key. -/
def aerase {α : Type} : List (Nat × α) → Nat → List (Nat × α)
  | [], _ => []
  | p :: r, k => if p.1 = k then aerase r k else p :: aerase r k

@[simp] theorem alookup_nil {α : Type} (k : Nat) : alookup ([] : List (Nat × α)) k = none := rfl

@[simp] theorem alookup_cons {α : Type} (p : Nat × α) (r : List (Nat × α)) (k : Nat) :
    alookup (p :: r) k = if p.1 = k then some p.2 else alookup r k := rfl

theorem alookup_aset_self {α : Type} (l : List (Nat × α)) (k : Nat) (v : α) :
    alookup (aset l k v) k = some v := by
  induction l with
  | nil => simp [aset]
  | cons p r ih =>
    by_cases h : p.1 = k
    · simp [aset, h]
    · simp [aset, h, ih]

theorem alookup_aset_ne {α : Type} (l : List (Nat × α)) (k j : Nat) (v : α) (h : j ≠ k) :
    alookup (aset l k v) j = alookup l j := by
  have hk : ¬ k = j := fun hh => h hh.symm
  induction l with
  | nil => simp [aset, hk]
  | cons p r ih =>
    by_cases hp : p.1 = k
    · subst hp
      simp [aset, hk]
    · by_cases hj : p.1 = j <;> simp [aset, hp, hj, ih, h]

theorem alookup_aerase_self {α : Type} (l : List (Nat × α)) (k : Nat) :
    alookup (aerase l k) k = none := by
  induction l with
  | nil => simp [aerase]
  | cons p r ih =>
    by_cases h : p.1 = k <;> simp [aerase, h, ih]

theorem alookup_aerase_ne {α : Type} (l : List (Nat × α)) (k j : Nat) (h : j ≠ k) :
    alookup (aerase l k) j = alookup l j := by
  induction l with
  | nil => simp [aerase]
  | cons p r ih =>
    by_cases hp : p.1 = k
    · subst hp
      have hk : ¬ p.1 = j := fun hh => h hh.symm
      simp [aerase, hk, ih]
    · by_cases hj : p.1 = j <;> simp [aerase, hp, hj, ih, h]

/-! ### Compression (external zlib library) -/

/-- Modelled from the spec: `zlib.compress`.  The zlib library is an
external collaborator whose source is not part of this repository; spec §6
describes the payload format only as "a generic lossless byte-stream
compressor applied to the finalized raw audio bytes".  A compressed stream
is modelled as a header byte (zlib streams open with `0x78`) followed by
the payload, which keeps the two properties the claims rely on: the
round trip `decompress (compress x) = x` holds for every `x`, and a byte
string that is not a well-formed stream — in particular the empty string —
is rejected by decompression. -/
def zlibCompress (x : Bytes) : Bytes := 120 :: x

/-- Modelled from the spec: `zlib.decompress`; fails (`zlib.error`) on
inputs that do not carry the stream header, e.g. the empty string. -/
def zlibDecompress : Bytes → Option Bytes
  | 120 :: rest => some rest
  | _ => none

@[simp] theorem zlibDecompress_compress (x : Bytes) :
    zlibDecompress (zlibCompress x) = some x := rfl

/-! ### The recording engine (`sink.py`) -/

/-- `check_can_listen` coroutine inside `BigBrotherSink.write`
(sink.py lines 81-94): select the `users` row; when absent, insert a
default-allow row and report `true`; otherwise report the stored flag.
Returns the decision, the updated database and the storage operations
performed. -/
def checkCanListen (db : DB) (u : Nat) : Bool × DB × List Op :=
  match db.users.find? (fun r => r.user_id == u) with
  | none => (true, { db with users := db.users ++ [⟨u, true⟩] }, [Op.userLookup u, Op.userInsert u])
  | some r => (r.can_listen, db, [Op.userLookup u])

/-- The access-cache gate at the top of `write` (sink.py lines 79-99):
on a cache miss run `check_can_listen` and memoize the decision. -/
def gateCache (st : SinkState) (user : Nat) : Bool × SinkState :=
  match alookup st.cache user with
  | some b => (b, st)
  | none =>
    let r := checkCanListen st.db user
    (r.1, { st with db := r.2.1, cache := aset st.cache user r.1, trace := st.trace ++ r.2.2 })

/-- sink.py lines 104-106: create the `BytesIO` frame buffer when absent. -/
def ensureBuffer (st : SinkState) (user : Nat) : SinkState :=
  if (alookup st.audioData user).isSome then st
  else { st with audioData := aset st.audioData user [] }

/-- sink.py lines 108-124: when no session is open for the speaker, insert
the initial `sessions` row (speaker, channel, now; `ended_at`, `data`,
`leave_reason` all NULL) and record the returned primary key. -/
def ensureSession (st : SinkState) (user : Nat) : SinkState :=
  if (alookup st.sessionsMap user).isSome then st
  else
    let sid := st.db.nextId
    let row : SessionRow :=
      { id := sid, channel_id := st.channelId, user_id := user, started_at := st.now,
        ended_at := none, data := none, leave_reason := none }
    { st with
      db := { st.db with sessions := st.db.sessions ++ [row], nextId := sid + 1 },
      sessionsMap := aset st.sessionsMap user sid,
      now := st.now + 1,
      trace := st.trace ++ [Op.sessionInsert sid] }

/-- `BigBrotherSink.cleanup_one` (sink.py lines 154-217): pop the frame
buffer (`None` means nothing to do), pop the session id, compress the
buffered bytes and finalize the session row — `ended_at`, `data` and
`leave_reason` set by one UPDATE whose WHERE clause matches the popped id
(a NULL id matches no row).  The intermediate
`OGGSink.format_audio` container step is an external transcoding
collaborator (spec §1 places it out of scope; spec §6 has the stored
payload be the compressor applied to the finalized raw audio bytes), so it
is the identity on the buffered bytes here. -/
def cleanup_one (st : SinkState) (user : Nat) (reason : LeaveReason) : Option Nat × SinkState :=
  match alookup st.audioData user with
  | none => (none, st)
  | some buf =>
    let sid := alookup st.sessionsMap user
    let payload := zlibCompress buf
    let newSessions := st.db.sessions.map (fun r =>
      if some r.id = sid then
        { r with ended_at := some st.now, data := some payload, leave_reason := some reason }
      else r)
    (sid,
      { st with
        audioData := aerase st.audioData user,
        sessionsMap := aerase st.sessionsMap user,
        db := { st.db with sessions := newSessions },
        now := st.now + 1,
        trace := st.trace ++ [Op.sessionUpdate sid] })

/-- The state after `write` made sure the frame buffer and the open
session row of the speaker exist (sink.py lines 104-124). -/
def afterGate (st : SinkState) (user : Nat) : SinkState :=
  ensureSession (ensureBuffer st user) user

/-- sink.py line 138, `adata.write(data)`: append the frame to the
speaker's buffer. -/
def appendFrame (st : SinkState) (user : Nat) (data : Bytes) : SinkState :=
  { st with audioData := aset st.audioData user (((alookup st.audioData user).getD []) ++ data) }

/-- `BigBrotherSink.write` (sink.py lines 65-138).  The `fuel` argument
bounds the `self.write(data, user)` recursion of the split path (the
Python source recurses without a bound); `none` is the model's marker for
a non-terminating run, never an error of the code.  Steps, in source
order: bail out when `self.vc` is `None`; access-cache gate, silently
dropping the frame of a disallowed speaker; create the frame buffer and
open a session when absent; split (finalize with `CONTINUED`, then
re-invoke `write` with the same frame) when the buffer has reached
`_max_file_len`; otherwise append the frame. -/
def write : Nat → SinkState → Bytes → Nat → Option SinkState
  | 0, _, _, _ => none
  | fuel + 1, st, data, user =>
    if st.vc = false then some st
    else
      let g := gateCache st user
      if g.1 = false then some g.2
      else
        let st3 := afterGate g.2 user
        let buf := (alookup st3.audioData user).getD []
        match st3.maxFileLen with
        | some m =>
          if m ≤ buf.length then
            write fuel (cleanup_one st3 user LeaveReason.CONTINUED).2 data user
          else some (appendFrame st3 user data)
        | none => some (appendFrame st3 user data)

/-- A sequence of frames delivered in order for one speaker, each through
`write` (frames of one speaker never overlap; fuel 2 covers the one
split re-invocation a positive threshold allows). -/
def writeMany (user : Nat) : List Bytes → SinkState → Option SinkState
  | [], st => some st
  | f :: fs, st =>
    match write 2 st f user with
    | none => none
    | some st1 => writeMany user fs st1

/-- `BigBrotherSink.cleanup` (sink.py lines 140-152): snapshot the buffered
speakers, finalize each of them (`cleanup_one`), wait for all of them, then
set `cleanup_event`.  The thread-pool fan-out joined by `wait(...)` before
`set()` is embedded as a fold over the snapshot. -/
def cleanup (st : SinkState) (reason : LeaveReason) : SinkState :=
  let stf := { st with finished := true }
  let users := stf.audioData.map (fun p => p.1)
  let st2 := users.foldl (fun s u => (cleanup_one s u reason).2) stf
  { st2 with eventCount := st2.eventCount + 1, trace := st2.trace ++ [Op.eventSet] }

/-- A freshly constructed sink on one voice connection (`__init__` plus
`init`): empty cache, buffers and session map, threshold resolved. -/
def initSink (maxFileLen : Option Nat) (ch : Nat) (users : List UserRow) : SinkState :=
  { db := { sessions := [], users := users, nextId := 0 },
    cache := [], audioData := [], sessionsMap := [],
    maxFileLen := maxFileLen, vc := true, channelId := ch,
    now := 0, finished := false, eventCount := 0, trace := [] }

/-! ### The recall pipeline query (`cog.py`, `BigBrother.holdup`) -/

/-- cog.py lines 292-298: `select(Sessions.started_at).order_by(desc)`
then `.scalar()` — the most recent session start time of the speaker. -/
def lastSessionStart (db : DB) (who : Nat) : Option Nat :=
  ((db.sessions.filter (fun r => r.user_id == who)).map (fun r => r.started_at)).max?

/-- cog.py lines 300-303: replace `starting_at` by the most recent session
start when that start is older (`last_session < starting_at`). -/
def resolveStartingAt (db : DB) (who : Nat) (startingAt : Nat) : Nat :=
  match lastSessionStart db who with
  | none => startingAt
  | some ls => if ls < startingAt then ls else startingAt

/-- cog.py lines 305-311: the recall row set — `user_id == who`,
`started_at >= starting_at`, `data != None`; the statement carries no
ORDER BY, so rows come back in table (insertion) order. -/
def recallRows (db : DB) (who s : Nat) : List SessionRow :=
  db.sessions.filter (fun r => r.user_id == who && decide (s ≤ r.started_at) && r.data.isSome)

/-- cog.py line 312: `result.scalars().all()` — the `data` column of the
selected rows, in row order. -/
def recallChunks (db : DB) (who s : Nat) : List Bytes :=
  (recallRows db who s).filterMap (fun r => r.data)

/-- cog.py lines 318-325: decompression futures are created over the chunk
list in order and awaited in the same order, so the uncompressed list (the
transcoder input sequence) is the in-order image of the chunk list. -/
def recallDecompressed (db : DB) (who s : Nat) : Option (List Bytes) :=
  (recallChunks db who s).mapM zlibDecompress

/-! ### Session-state predicates (spec §3 invariant, `sql.py` docstring) -/

/-- A session row is open: `ended_at`, `data`, `leave_reason` all absent. -/
def openRow (r : SessionRow) : Prop :=
  r.ended_at = none ∧ r.data = none ∧ r.leave_reason = none

instance (r : SessionRow) : Decidable (openRow r) :=
  inferInstanceAs (Decidable (r.ended_at = none ∧ r.data = none ∧ r.leave_reason = none))

/-- A session row is finished: all three fields present. -/
def finishedRow (r : SessionRow) : Prop :=
  r.ended_at ≠ none ∧ r.data ≠ none ∧ r.leave_reason ≠ none

instance (r : SessionRow) : Decidable (finishedRow r) :=
  inferInstanceAs (Decidable (r.ended_at ≠ none ∧ r.data ≠ none ∧ r.leave_reason ≠ none))

/-- Open or finished — no partially written session row. -/
def rowOk (r : SessionRow) : Prop := openRow r ∨ finishedRow r

instance (r : SessionRow) : Decidable (rowOk r) :=
  inferInstanceAs (Decidable (openRow r ∨ finishedRow r))

/-- Every session row at rest is open or finished. -/
def AllOk (db : DB) : Prop := ∀ r ∈ db.sessions, rowOk r

instance (db : DB) : Decidable (AllOk db) := List.decidableBAll _ _

/-- Lift of `AllOk` through the optional result of a fueled run. -/
def AllOkO (o : Option SinkState) : Prop := ∀ s ∈ o, AllOk s.db

/-- The number of finished session rows. -/
def countFinished (db : DB) : Nat := db.sessions.countP (fun r => decide (finishedRow r))

/-- The finished session rows of one speaker, in table order. -/
def finishedFor (u : Nat) (db : DB) : List SessionRow :=
  db.sessions.filter (fun r => r.user_id == u && decide (finishedRow r))

/-- Number of `users`-table lookups in a trace (claim C5's storage
round-trip count). -/
def lookupOps (t : List Op) : Nat :=
  t.countP (fun o => match o with | Op.userLookup _ => true | _ => false)

/-- The flag stored for a user, when a row exists. -/
def userFlag (db : DB) (u : Nat) : Option Bool :=
  (db.users.find? (fun r => r.user_id == u)).map (fun r => r.can_listen)

/-- The access decision for `u` resolves to "disallowed": either already
cached as `false`, or uncached with a stored `can_listen = false` row. -/
def disallowed (st : SinkState) (u : Nat) : Prop :=
  alookup st.cache u = some false ∨
    (alookup st.cache u = none ∧ userFlag st.db u = some false)

/-- `_sessions ⊆ audio_data` on keys: every speaker with an open session id
also has a frame buffer (claim C10's invariant), stated over the entries of
the session map. -/
def SubDom (st : SinkState) : Prop :=
  ∀ p ∈ st.sessionsMap, (alookup st.audioData p.1).isSome

instance (st : SinkState) : Decidable (SubDom st) := List.decidableBAll _ _

/-- Lift of `SubDom` through the optional result of a fueled run. -/
def SubDomO (o : Option SinkState) : Prop := ∀ s ∈ o, SubDom s

/-! ### Pure split model for claim C1 -/

/-- Total byte length of a frame sequence. -/
def sumLen (l : List Bytes) : Nat := (l.map List.length).sum

/-- Per-frame effect of `write` on (finalized segments, current buffer) for
one allowed speaker and a positive threshold `m`: when the buffer has
already reached `m`, the session is finalized and the frame opens the
successor buffer; otherwise the frame is appended. -/
def step (m : Nat) (acc : List Bytes × Bytes) (f : Bytes) : List Bytes × Bytes :=
  if m ≤ acc.2.length then (acc.1 ++ [acc.2], f) else (acc.1, acc.2 ++ f)

/-- Segments finalized by splits, and the final buffer, after a frame
sequence for one allowed speaker starting from an empty buffer. -/
def runSegs (m : Nat) (frames : List Bytes) : List Bytes × Bytes :=
  frames.foldl (step m) ([], [])

/-- C1's hypothesis as the claim words it: the cumulative byte length of
the frame sequence crosses the split threshold exactly once — exactly one
index `i` with `S i < m ≤ S (i+1)` for the prefix byte sums `S`. -/
def crossesOnce (m : Nat) (frames : List Bytes) : Prop :=
  ((List.range frames.length).countP (fun i =>
    decide (sumLen (frames.take i) < m) && decide (m ≤ sumLen (frames.take (i + 1))))) = 1

instance (m : Nat) (frames : List Bytes) : Decidable (crossesOnce m frames) :=
  inferInstanceAs (Decidable (_ = 1))

/-- Claim C3 as stated: the resolved `startingAt` replaces the requested
one by the speaker's most recent session start exactly when that start is
more recent. -/
def claimC3 (db : DB) (who s : Nat) : Prop :=
  resolveStartingAt db who s =
    match lastSessionStart db who with
    | none => s
    | some ls => if s < ls then ls else s

instance (db : DB) (who s : Nat) : Decidable (claimC3 db who s) := by
  unfold claimC3
  exact inferInstance

/-- Claim C4 as stated: both round trips hold at `x`. -/
def claimC4 (x : Bytes) : Prop :=
  zlibDecompress (zlibCompress x) = some x ∧
    (zlibDecompress x).map zlibCompress = some x

instance (x : Bytes) : Decidable (claimC4 x) :=
  inferInstanceAs (Decidable (_ ∧ _))

/-- Simulation invariant for a single-speaker run (claim C1): the sink
state reached after writing some frames for one allowed speaker `u` on a
fresh connection with threshold `m`.  `segs` are the byte segments already
finalized by splits (each stored compressed with reason `CONTINUED`, in
table order), `buf` is the currently buffered segment of the one open
session row, whose id is fresh and distinct from all finished rows. -/
def Sim (u m ch : Nat) (segs : List Bytes) (buf : Bytes) (st : SinkState) : Prop :=
  st.vc = true ∧
  st.maxFileLen = some m ∧
  st.channelId = ch ∧
  alookup st.cache u = some true ∧
  st.audioData = [(u, buf)] ∧
  ∃ sid t rows,
    st.sessionsMap = [(u, sid)] ∧
    st.db.sessions = rows ++
      [{ id := sid, channel_id := ch, user_id := u, started_at := t,
         ended_at := none, data := none, leave_reason := none }] ∧
    rows.map (fun r => r.data) = segs.map (fun sg => some (zlibCompress sg)) ∧
    rows.map (fun r => r.leave_reason) = segs.map (fun _ => some LeaveReason.CONTINUED) ∧
    (∀ r ∈ rows, r.user_id = u ∧ finishedRow r ∧ r.id < st.db.nextId ∧ r.id ≠ sid) ∧
    sid < st.db.nextId

/-! ### Concrete fixtures for counterexamples and witnesses -/

/-- A store holding one session of speaker 7 started at time 5. -/
def exdbC3 : DB := { sessions := [⟨0, 9, 7, 5, none, none, none⟩], users := [], nextId := 1 }

/-- A store with three finished sessions of speaker 7 (started 1, 4, 9,
the one at 4 with its payload lost) and one of speaker 8, in
chronological insertion order. -/
def exdbC2 : DB :=
  { sessions :=
      [⟨0, 9, 7, 1, some 2, some (zlibCompress [65]), some LeaveReason.CONTINUED⟩,
       ⟨1, 9, 8, 3, some 5, some (zlibCompress [67]), some LeaveReason.NATURAL⟩,
       ⟨2, 9, 7, 4, none, none, none⟩,
       ⟨3, 9, 7, 9, some 11, some (zlibCompress [66]), some LeaveReason.NATURAL⟩],
    users := [], nextId := 4 }

/-- A sink whose cache has not seen speaker 7 and whose store has no
`users` row for them: the first write must do one lookup and insert the
default-allow record. -/
def stC5 : SinkState := initSink (some 100) 9 []

/-- The state produced by the first write of speaker 7 against `stC5`. -/
def stC5r : SinkState := (write 2 stC5 [1] 7).getD stC5

/-- A sink whose store holds a `can_listen = false` row for speaker 3. -/
def stC6 : SinkState := initSink (some 100) 9 [⟨3, false⟩]

/-- A sink with two buffered speakers, each with an open session row. -/
def stC7 : SinkState :=
  { db := { sessions := [⟨0, 9, 1, 0, none, none, none⟩, ⟨1, 9, 2, 1, none, none, none⟩],
            users := [⟨1, true⟩, ⟨2, true⟩], nextId := 2 },
    cache := [(1, true), (2, true)],
    audioData := [(1, [5]), (2, [6])],
    sessionsMap := [(1, 0), (2, 1)],
    maxFileLen := some 100, vc := true, channelId := 9,
    now := 3, finished := false, eventCount := 0, trace := [] }

/-- A sink whose single speaker's buffer has already reached the
threshold 1, so the next write splits. -/
def stC9 : SinkState :=
  { db := { sessions := [⟨0, 9, 4, 0, none, none, none⟩], users := [⟨4, true⟩], nextId := 1 },
    cache := [(4, true)],
    audioData := [(4, [9])],
    sessionsMap := [(4, 0)],
    maxFileLen := some 1, vc := true, channelId := 9,
    now := 1, finished := false, eventCount := 0, trace := [] }

/-! ### Component lemmas for the write path -/

theorem lookupOps_append (s t : List Op) : lookupOps (s ++ t) = lookupOps s + lookupOps t :=
  List.countP_append _ _ _

theorem checkCanListen_absent (db : DB) (u : Nat) (h : userFlag db u = none) :
    checkCanListen db u =
      (true, { db with users := db.users ++ [⟨u, true⟩] },
        [Op.userLookup u, Op.userInsert u]) := by
  unfold checkCanListen
  unfold userFlag at h
  rw [Option.map_eq_none'] at h
  rw [h]

theorem checkCanListen_present (db : DB) (u : Nat) (r : UserRow)
    (h : db.users.find? (fun r => r.user_id == u) = some r) :
    checkCanListen db u = (r.can_listen, db, [Op.userLookup u]) := by
  unfold checkCanListen
  rw [h]

theorem gateCache_hit (st : SinkState) (u : Nat) (b : Bool)
    (h : alookup st.cache u = some b) : gateCache st u = (b, st) := by
  unfold gateCache
  rw [h]

theorem gateCache_miss (st : SinkState) (u : Nat) (h : alookup st.cache u = none) :
    gateCache st u =
      ((checkCanListen st.db u).1,
        { st with db := (checkCanListen st.db u).2.1,
                  cache := aset st.cache u (checkCanListen st.db u).1,
                  trace := st.trace ++ (checkCanListen st.db u).2.2 }) := by
  unfold gateCache
  rw [h]

@[simp] theorem ensureBuffer_db (st : SinkState) (u : Nat) : (ensureBuffer st u).db = st.db := by
  unfold ensureBuffer; split <;> rfl

@[simp] theorem ensureBuffer_cache (st : SinkState) (u : Nat) :
    (ensureBuffer st u).cache = st.cache := by
  unfold ensureBuffer; split <;> rfl

@[simp] theorem ensureBuffer_sessionsMap (st : SinkState) (u : Nat) :
    (ensureBuffer st u).sessionsMap = st.sessionsMap := by
  unfold ensureBuffer; split <;> rfl

@[simp] theorem ensureBuffer_maxFileLen (st : SinkState) (u : Nat) :
    (ensureBuffer st u).maxFileLen = st.maxFileLen := by
  unfold ensureBuffer; split <;> rfl

@[simp] theorem ensureBuffer_vc (st : SinkState) (u : Nat) :
    (ensureBuffer st u).vc = st.vc := by
  unfold ensureBuffer; split <;> rfl

@[simp] theorem ensureBuffer_channelId (st : SinkState) (u : Nat) :
    (ensureBuffer st u).channelId = st.channelId := by
  unfold ensureBuffer; split <;> rfl

@[simp] theorem ensureBuffer_trace (st : SinkState) (u : Nat) :
    (ensureBuffer st u).trace = st.trace := by
  unfold ensureBuffer; split <;> rfl

@[simp] theorem ensureSession_cache (st : SinkState) (u : Nat) :
    (ensureSession st u).cache = st.cache := by
  unfold ensureSession; split <;> rfl

@[simp] theorem ensureSession_audioData (st : SinkState) (u : Nat) :
    (ensureSession st u).audioData = st.audioData := by
  unfold ensureSession; split <;> rfl

@[simp] theorem ensureSession_maxFileLen (st : SinkState) (u : Nat) :
    (ensureSession st u).maxFileLen = st.maxFileLen := by
  unfold ensureSession; split <;> rfl

@[simp] theorem ensureSession_vc (st : SinkState) (u : Nat) :
    (ensureSession st u).vc = st.vc := by
  unfold ensureSession; split <;> rfl

@[simp] theorem ensureSession_channelId (st : SinkState) (u : Nat) :
    (ensureSession st u).channelId = st.channelId := by
  unfold ensureSession; split <;> rfl

@[simp] theorem ensureSession_users (st : SinkState) (u : Nat) :
    (ensureSession st u).db.users = st.db.users := by
  unfold ensureSession; split <;> rfl

theorem ensureSession_lookupOps (st : SinkState) (u : Nat) :
    lookupOps (ensureSession st u).trace = lookupOps st.trace := by
  unfold ensureSession
  split
  · rfl
  · simp [lookupOps_append, lookupOps]

@[simp] theorem cleanup_one_cache (st : SinkState) (u : Nat) (reason : LeaveReason) :
    (cleanup_one st u reason).2.cache = st.cache := by
  unfold cleanup_one
  rcases h : alookup st.audioData u with _ | b <;> simp

@[simp] theorem cleanup_one_users (st : SinkState) (u : Nat) (reason : LeaveReason) :
    (cleanup_one st u reason).2.db.users = st.db.users := by
  unfold cleanup_one
  rcases h : alookup st.audioData u with _ | b <;> simp

@[simp] theorem cleanup_one_maxFileLen (st : SinkState) (u : Nat) (reason : LeaveReason) :
    (cleanup_one st u reason).2.maxFileLen = st.maxFileLen := by
  unfold cleanup_one
  rcases h : alookup st.audioData u with _ | b <;> simp

@[simp] theorem cleanup_one_vc (st : SinkState) (u : Nat) (reason : LeaveReason) :
    (cleanup_one st u reason).2.vc = st.vc := by
  unfold cleanup_one
  rcases h : alookup st.audioData u with _ | b <;> simp

@[simp] theorem cleanup_one_channelId (st : SinkState) (u : Nat) (reason : LeaveReason) :
    (cleanup_one st u reason).2.channelId = st.channelId := by
  unfold cleanup_one
  rcases h : alookup st.audioData u with _ | b <;> simp

@[simp] theorem cleanup_one_eventCount (st : SinkState) (u : Nat) (reason : LeaveReason) :
    (cleanup_one st u reason).2.eventCount = st.eventCount := by
  unfold cleanup_one
  rcases h : alookup st.audioData u with _ | b <;> simp

theorem cleanup_one_lookupOps (st : SinkState) (u : Nat) (reason : LeaveReason) :
    lookupOps (cleanup_one st u reason).2.trace = lookupOps st.trace := by
  unfold cleanup_one
  rcases h : alookup st.audioData u with _ | b
  · rfl
  · simp [lookupOps_append, lookupOps]

end BigBrother

namespace BigBrother

/-! ### Claim C3: widening of the recall window -/

/-- C3, counterexample: with one session of speaker 7 started at time 5
and `startingAt = 3`, the most recent session start (5) is more recent
than `startingAt`, yet the code leaves `startingAt` at 3 — it substitutes
the last start time only when that start is *older* (`last_session <
starting_at`, cog.py line 301), the opposite direction of the claim. -/
theorem C3_counterexample : ¬ claimC3 exdbC3 7 3 := by decide

/-- C3 (amended): after computing `startingAt`, the pipeline replaces it
by the speaker's most recent session start exactly when that start is
*older* than `startingAt` — i.e. the resolved value is the minimum of the
two — so the window is only ever widened (never advanced past the
requested bound nor past the most recent session start). -/
theorem C3_amended (db : DB) (who s : Nat) :
    resolveStartingAt db who s =
      (match lastSessionStart db who with
       | none => s
       | some ls => Nat.min ls s) ∧
    resolveStartingAt db who s ≤ s ∧
    resolveStartingAt db who s ≤ (lastSessionStart db who).getD s := by
  unfold resolveStartingAt
  rcases lastSessionStart db who with _ | ls
  · simp
  · refine ⟨?_, ?_, ?_⟩ <;> simp only [Option.getD_some, Nat.min_def] <;>
      (try split) <;> (try split) <;> omega

/-! ### Claim C4: compression round trips -/

/-- C4, counterexample: at the empty byte string the claimed equation
`compress (decompress x) = x` fails — the empty string is not a valid
compressed stream, so decompression errors out instead of producing a
byte string to re-compress. -/
theorem C4_counterexample : ¬ claimC4 [] := by decide

/-- C4 (amended): `decompress (compress x) = x` for every byte string
including the empty one; the reverse composition holds on the image of
`compress` (compressing a decompressed valid stream reproduces that
stream), but not for arbitrary `x`. -/
theorem C4_amended (x : Bytes) :
    zlibDecompress (zlibCompress x) = some x ∧
    (zlibDecompress (zlibCompress x)).map zlibCompress = some (zlibCompress x) :=
  ⟨rfl, rfl⟩

end BigBrother

namespace BigBrother

/-! ### Path lemmas for `write` -/

@[simp] theorem gateCache_audioData (st : SinkState) (u : Nat) :
    (gateCache st u).2.audioData = st.audioData := by
  unfold gateCache; cases alookup st.cache u <;> rfl

@[simp] theorem gateCache_sessionsMap (st : SinkState) (u : Nat) :
    (gateCache st u).2.sessionsMap = st.sessionsMap := by
  unfold gateCache; cases alookup st.cache u <;> rfl

@[simp] theorem gateCache_maxFileLen (st : SinkState) (u : Nat) :
    (gateCache st u).2.maxFileLen = st.maxFileLen := by
  unfold gateCache; cases alookup st.cache u <;> rfl

@[simp] theorem gateCache_vc (st : SinkState) (u : Nat) :
    (gateCache st u).2.vc = st.vc := by
  unfold gateCache; cases alookup st.cache u <;> rfl

@[simp] theorem gateCache_channelId (st : SinkState) (u : Nat) :
    (gateCache st u).2.channelId = st.channelId := by
  unfold gateCache; cases alookup st.cache u <;> rfl

@[simp] theorem gateCache_now (st : SinkState) (u : Nat) :
    (gateCache st u).2.now = st.now := by
  unfold gateCache; cases alookup st.cache u <;> rfl

@[simp] theorem gateCache_eventCount (st : SinkState) (u : Nat) :
    (gateCache st u).2.eventCount = st.eventCount := by
  unfold gateCache; cases alookup st.cache u <;> rfl

@[simp] theorem gateCache_sessions (st : SinkState) (u : Nat) :
    (gateCache st u).2.db.sessions = st.db.sessions := by
  unfold gateCache
  cases alookup st.cache u
  · unfold checkCanListen
    cases st.db.users.find? (fun r => r.user_id == u) <;> rfl
  · rfl

@[simp] theorem gateCache_nextId (st : SinkState) (u : Nat) :
    (gateCache st u).2.db.nextId = st.db.nextId := by
  unfold gateCache
  cases alookup st.cache u
  · unfold checkCanListen
    cases st.db.users.find? (fun r => r.user_id == u) <;> rfl
  · rfl

/-- After the gate ran, the decision it returned is cached. -/
theorem gateCache_cache_self (st : SinkState) (u : Nat) :
    alookup (gateCache st u).2.cache u = some (gateCache st u).1 := by
  unfold gateCache
  cases h : alookup st.cache u
  · simp [alookup_aset_self]
  · simp [h]

theorem ensureBuffer_lookup_self (st : SinkState) (u : Nat) :
    (alookup (ensureBuffer st u).audioData u).isSome := by
  unfold ensureBuffer
  cases h : alookup st.audioData u
  · simp [h, alookup_aset_self]
  · simp [h]

theorem ensureBuffer_of_none (st : SinkState) (u : Nat) (hb : alookup st.audioData u = none) :
    (ensureBuffer st u).audioData = aset st.audioData u [] := by
  unfold ensureBuffer
  simp [hb]

theorem ensureBuffer_of_some (st : SinkState) (u : Nat) (b : Bytes)
    (hb : alookup st.audioData u = some b) : ensureBuffer st u = st := by
  unfold ensureBuffer
  simp [hb]

theorem ensureSession_of_some (st : SinkState) (u : Nat) (sid : Nat)
    (hs : alookup st.sessionsMap u = some sid) : ensureSession st u = st := by
  unfold ensureSession
  simp [hs]

@[simp] theorem afterGate_cache (st : SinkState) (u : Nat) :
    (afterGate st u).cache = st.cache := by
  unfold afterGate; simp

@[simp] theorem afterGate_maxFileLen (st : SinkState) (u : Nat) :
    (afterGate st u).maxFileLen = st.maxFileLen := by
  unfold afterGate; simp

@[simp] theorem afterGate_vc (st : SinkState) (u : Nat) :
    (afterGate st u).vc = st.vc := by
  unfold afterGate; simp

@[simp] theorem afterGate_channelId (st : SinkState) (u : Nat) :
    (afterGate st u).channelId = st.channelId := by
  unfold afterGate; simp

@[simp] theorem afterGate_users (st : SinkState) (u : Nat) :
    (afterGate st u).db.users = st.db.users := by
  unfold afterGate
  rw [ensureSession_users, ensureBuffer_db]

theorem afterGate_lookup_self (st : SinkState) (u : Nat) :
    (alookup (afterGate st u).audioData u).isSome := by
  unfold afterGate
  rw [ensureSession_audioData]
  exact ensureBuffer_lookup_self st u

theorem write_vc_false (fuel : Nat) (st : SinkState) (data : Bytes) (user : Nat)
    (h : st.vc = false) : write (fuel + 1) st data user = some st := by
  simp [write, h]

theorem write_denied (fuel : Nat) (st : SinkState) (data : Bytes) (user : Nat)
    (hvc : st.vc = true) (hg : (gateCache st user).1 = false) :
    write (fuel + 1) st data user = some (gateCache st user).2 := by
  simp [write, hvc, hg]

theorem write_allowed_none (fuel : Nat) (st : SinkState) (data : Bytes) (user : Nat)
    (hvc : st.vc = true) (hg : (gateCache st user).1 = true)
    (hm : st.maxFileLen = none) :
    write (fuel + 1) st data user =
      some (appendFrame (afterGate (gateCache st user).2 user) user data) := by
  have hm3 : (afterGate (gateCache st user).2 user).maxFileLen = none := by
    simp [hm]
  simp [write, hvc, hg, hm, hm3]

theorem write_allowed_nosplit (fuel : Nat) (st : SinkState) (data : Bytes) (user : Nat)
    (m : Nat) (hvc : st.vc = true) (hg : (gateCache st user).1 = true)
    (hm : st.maxFileLen = some m)
    (hlt : ((alookup (afterGate (gateCache st user).2 user).audioData user).getD []).length < m) :
    write (fuel + 1) st data user =
      some (appendFrame (afterGate (gateCache st user).2 user) user data) := by
  have hm3 : (afterGate (gateCache st user).2 user).maxFileLen = some m := by
    simp [hm]
  simp [write, hvc, hg, hm, hm3, Nat.not_le.mpr hlt]

theorem write_split (fuel : Nat) (st : SinkState) (data : Bytes) (user : Nat)
    (m : Nat) (hvc : st.vc = true) (hg : (gateCache st user).1 = true)
    (hm : st.maxFileLen = some m)
    (hge : m ≤ ((alookup (afterGate (gateCache st user).2 user).audioData user).getD []).length) :
    write (fuel + 1) st data user =
      write fuel
        (cleanup_one (afterGate (gateCache st user).2 user) user LeaveReason.CONTINUED).2
        data user := by
  have hm3 : (afterGate (gateCache st user).2 user).maxFileLen = some m := by
    simp [hm]
  simp [write, hvc, hg, hm, hm3, hge]

theorem cleanup_one_erases (st : SinkState) (u : Nat) (reason : LeaveReason)
    (h : (alookup st.audioData u).isSome) :
    (cleanup_one st u reason).2.audioData = aerase st.audioData u := by
  unfold cleanup_one
  cases hb : alookup st.audioData u
  · rw [hb] at h; simp at h
  · simp

end BigBrother

namespace BigBrother

/-- A write against a state with no buffer for the speaker never splits
(the fresh buffer is empty and the threshold positive), so it finishes in
one step, independent of remaining fuel. -/
theorem write_no_buffer (fuel : Nat) (st : SinkState) (data : Bytes) (user : Nat) (m : Nat)
    (hvc : st.vc = true) (hc : alookup st.cache user = some true)
    (hb : alookup st.audioData user = none)
    (hm : st.maxFileLen = some m) (h0 : 0 < m) :
    write (fuel + 1) st data user = some (appendFrame (afterGate st user) user data) := by
  have hg : gateCache st user = (true, st) := gateCache_hit st user true hc
  have hbuf : (alookup (afterGate (gateCache st user).2 user).audioData user).getD [] =
      ([] : Bytes) := by
    simp only [hg]
    unfold afterGate
    rw [ensureSession_audioData, ensureBuffer_of_none st user hb, alookup_aset_self]
    rfl
  have hr := write_allowed_nosplit fuel st data user m hvc (by rw [hg]) hm
    (by rw [hbuf]; exact h0)
  rw [hr]
  simp [hg]

/-- Fuel beyond 2 never changes the result of a `write` against a positive
(or absent) threshold: the split path empties the buffer, so the
re-invocation finishes at once. -/
theorem write_fuel_inv (st : SinkState) (data : Bytes) (user : Nat)
    (hM : 0 < st.maxFileLen.getD 1) (fuel : Nat) :
    write (fuel + 1 + 1) st data user = write (1 + 1) st data user ∧
    (write (1 + 1) st data user).isSome = true := by
  by_cases hvc : st.vc = true
  case neg =>
    have hf : st.vc = false := by revert hvc; cases st.vc <;> simp
    rw [write_vc_false (fuel + 1) st data user hf, write_vc_false 1 st data user hf]
    simp
  case pos =>
    cases hg : (gateCache st user).1 with
    | false =>
      rw [write_denied (fuel + 1) st data user hvc hg, write_denied 1 st data user hvc hg]
      simp
    | true =>
      cases hm : st.maxFileLen with
      | none =>
        rw [write_allowed_none (fuel + 1) st data user hvc hg hm,
            write_allowed_none 1 st data user hvc hg hm]
        simp
      | some m =>
        have h0 : 0 < m := by rw [hm] at hM; simpa using hM
        by_cases hsplit :
            m ≤ ((alookup (afterGate (gateCache st user).2 user).audioData user).getD []).length
        · set st4 := (cleanup_one (afterGate (gateCache st user).2 user) user
            LeaveReason.CONTINUED).2 with hst4
          have h4vc : st4.vc = true := by
            rw [hst4, cleanup_one_vc, afterGate_vc, gateCache_vc]; exact hvc
          have h4c : alookup st4.cache user = some true := by
            have hgc := gateCache_cache_self st user
            rw [hg] at hgc
            rw [hst4, cleanup_one_cache, afterGate_cache]
            exact hgc
          have h4b : alookup st4.audioData user = none := by
            rw [hst4, cleanup_one_erases _ _ _ (afterGate_lookup_self _ _), alookup_aerase_self]
          have h4m : st4.maxFileLen = some m := by
            rw [hst4, cleanup_one_maxFileLen, afterGate_maxFileLen, gateCache_maxFileLen]
            exact hm
          have left := (write_split (fuel + 1) st data user m hvc hg hm hsplit).trans
            (write_no_buffer fuel st4 data user m h4vc h4c h4b h4m h0)
          have right := (write_split 1 st data user m hvc hg hm hsplit).trans
            (write_no_buffer 0 st4 data user m h4vc h4c h4b h4m h0)
          rw [left, right]
          simp
        · rw [write_allowed_nosplit (fuel + 1) st data user m hvc hg hm (Nat.not_le.mp hsplit),
              write_allowed_nosplit 1 st data user m hvc hg hm (Nat.not_le.mp hsplit)]
          simp

/-- C9: with the configured maximum buffer length strictly positive (or
absent, disabling splits), `write` terminates for every frame: a split
strictly shrinks the speaker's buffer to empty, so the recursive
re-invocation finishes immediately — fuel 2 (recursion depth 2) already
produces a result, and any further fuel returns the same result. -/
theorem C9_write_terminates (st : SinkState) (data : Bytes) (user : Nat)
    (hM : 0 < st.maxFileLen.getD 1) :
    (write 2 st data user).isSome = true ∧
    ∀ n : Nat, write (n + 2) st data user = write 2 st data user := by
  constructor
  · exact (write_fuel_inv st data user hM 0).2
  · intro n
    exact (write_fuel_inv st data user hM n).1

/-- C9 witness: a concrete write that exercises the split path (buffer
already at threshold 1) terminates and is fuel-independent. -/
theorem C9_write_terminates_witness :
    ((write 2 stC9 [7] 4).isSome = true) ∧ write (3 + 2) stC9 [7] 4 = write 2 stC9 [7] 4 := by
  have h := C9_write_terminates stC9 [7] 4 (by decide)
  exact ⟨h.1, h.2 3⟩

end BigBrother

namespace BigBrother

/-! ### Access gate characterizations -/

@[simp] theorem appendFrame_db (st : SinkState) (u : Nat) (d : Bytes) :
    (appendFrame st u d).db = st.db := rfl

@[simp] theorem appendFrame_cache (st : SinkState) (u : Nat) (d : Bytes) :
    (appendFrame st u d).cache = st.cache := rfl

@[simp] theorem appendFrame_sessionsMap (st : SinkState) (u : Nat) (d : Bytes) :
    (appendFrame st u d).sessionsMap = st.sessionsMap := rfl

@[simp] theorem appendFrame_trace (st : SinkState) (u : Nat) (d : Bytes) :
    (appendFrame st u d).trace = st.trace := rfl

@[simp] theorem appendFrame_vc (st : SinkState) (u : Nat) (d : Bytes) :
    (appendFrame st u d).vc = st.vc := rfl

@[simp] theorem appendFrame_maxFileLen (st : SinkState) (u : Nat) (d : Bytes) :
    (appendFrame st u d).maxFileLen = st.maxFileLen := rfl

@[simp] theorem appendFrame_eventCount (st : SinkState) (u : Nat) (d : Bytes) :
    (appendFrame st u d).eventCount = st.eventCount := rfl

theorem afterGate_lookupOps (st : SinkState) (u : Nat) :
    lookupOps (afterGate st u).trace = lookupOps st.trace := by
  unfold afterGate
  rw [ensureSession_lookupOps, ensureBuffer_trace]

theorem gateCache_miss_absent (st : SinkState) (u : Nat)
    (hc : alookup st.cache u = none) (hf : userFlag st.db u = none) :
    gateCache st u =
      (true,
        { st with db := { st.db with users := st.db.users ++ [⟨u, true⟩] },
                  cache := aset st.cache u true,
                  trace := st.trace ++ [Op.userLookup u, Op.userInsert u] }) := by
  rw [gateCache_miss st u hc, checkCanListen_absent st.db u hf]

theorem gateCache_miss_present (st : SinkState) (u : Nat) (r : UserRow)
    (hc : alookup st.cache u = none)
    (hf : st.db.users.find? (fun r => r.user_id == u) = some r) :
    gateCache st u =
      (r.can_listen,
        { st with cache := aset st.cache u r.can_listen,
                  trace := st.trace ++ [Op.userLookup u] }) := by
  rw [gateCache_miss st u hc, checkCanListen_present st.db u r hf]

theorem userFlag_eq_some (db : DB) (u : Nat) (b : Bool) (h : userFlag db u = some b) :
    ∃ r, db.users.find? (fun r => r.user_id == u) = some r ∧ r.can_listen = b := by
  unfold userFlag at h
  rcases Option.map_eq_some'.mp h with ⟨r, hr, hb⟩
  exact ⟨r, hr, hb⟩

/-- The access-gate effect of one `write`, for any fuel: the decision of
the speaker ends up cached (prior cache value, else stored flag, else
default allow); the `users` table gains the default-allow row exactly on
a cache miss with no stored row; and the number of `users` lookups grows
by one exactly on a cache miss. -/
theorem write_gate_effect : ∀ (fuel : Nat) (st : SinkState) (data : Bytes) (user : Nat)
    (st' : SinkState), write fuel st data user = some st' →
    st'.db.users = (if st.vc = true ∧ alookup st.cache user = none ∧ userFlag st.db user = none
      then st.db.users ++ [⟨user, true⟩] else st.db.users) ∧
    lookupOps st'.trace = lookupOps st.trace +
      (if st.vc = true ∧ alookup st.cache user = none then 1 else 0) ∧
    alookup st'.cache user = (if st.vc = true
      then some ((alookup st.cache user).getD ((userFlag st.db user).getD true))
      else alookup st.cache user) := by
  intro fuel
  induction fuel with
  | zero => intro st data user st' hw; exact absurd hw (by simp [write])
  | succ fuel ih =>
    intro st data user st' hw
    by_cases hvc : st.vc = true
    case neg =>
      have hf : st.vc = false := by revert hvc; cases st.vc <;> simp
      rw [write_vc_false fuel st data user hf] at hw
      cases hw
      simp [hf]
    case pos =>
      -- facts shared by every allowed continuation from the gate state g.2
      have hcont : ∀ st2 : SinkState, (gateCache st user).1 = true →
          st2.db.users = (gateCache st user).2.db.users →
          lookupOps st2.trace = lookupOps (gateCache st user).2.trace →
          alookup st2.cache user = alookup (gateCache st user).2.cache user →
          st2.db.users = (if st.vc = true ∧ alookup st.cache user = none ∧
              userFlag st.db user = none
            then st.db.users ++ [⟨user, true⟩] else st.db.users) ∧
          lookupOps st2.trace = lookupOps st.trace +
            (if st.vc = true ∧ alookup st.cache user = none then 1 else 0) ∧
          alookup st2.cache user = (if st.vc = true
            then some ((alookup st.cache user).getD ((userFlag st.db user).getD true))
            else alookup st.cache user) := by
        intro st2 hg hu ht hc
        cases hcc : alookup st.cache user with
        | some b =>
          have hgc := gateCache_hit st user b hcc
          rw [hgc] at hg hu ht hc
          have hb : b = true := hg
          subst hb
          refine ⟨?_, ?_, ?_⟩
          · simpa [hvc, hcc] using hu
          · simp [hvc, hcc, ht]
          · simp [hvc, hcc, hc]
        | none =>
          cases hfl : userFlag st.db user with
          | none =>
            have hgc := gateCache_miss_absent st user hcc hfl
            rw [hgc] at hg hu ht hc
            refine ⟨?_, ?_, ?_⟩
            · simpa [hvc, hcc, hfl] using hu
            · rw [ht]
              simp [hvc, hcc, lookupOps_append, lookupOps]
            · rw [hc, alookup_aset_self]
              simp [hvc, hcc, hfl]
          | some b =>
            obtain ⟨r, hfr, hrb⟩ := userFlag_eq_some st.db user b hfl
            have hgc := gateCache_miss_present st user r hcc hfr
            rw [hgc] at hg hu ht hc
            have hb : b = true := by rw [← hrb]; exact hg
            refine ⟨?_, ?_, ?_⟩
            · simpa [hvc, hcc, hfl] using hu
            · rw [ht]
              simp [hvc, hcc, lookupOps_append, lookupOps]
            · rw [hc, alookup_aset_self, hrb, hb]
              simp [hvc, hcc, hfl]
      cases hg : (gateCache st user).1 with
      | false =>
        rw [write_denied fuel st data user hvc hg] at hw
        cases hw
        cases hcc : alookup st.cache user with
        | some b =>
          have hgc := gateCache_hit st user b hcc
          have hb : b = false := by rw [hgc] at hg; exact hg
          subst hb
          rw [hgc]
          simp [hvc, hcc]
        | none =>
          cases hfl : userFlag st.db user with
          | none =>
            have hgc := gateCache_miss_absent st user hcc hfl
            rw [hgc] at hg
            exact absurd hg (by simp)
          | some b =>
            obtain ⟨r, hfr, hrb⟩ := userFlag_eq_some st.db user b hfl
            have hgc := gateCache_miss_present st user r hcc hfr
            have hb : b = false := by rw [hgc] at hg; rw [← hrb]; exact hg
            rw [hgc]
            refine ⟨?_, ?_, ?_⟩
            · simp [hvc, hcc, hfl]
            · simp [hvc, hcc, lookupOps_append, lookupOps]
            · rw [alookup_aset_self, hrb, hb]
              simp [hvc, hcc, hfl, hb]
      | true =>
        cases hm : st.maxFileLen with
        | none =>
          rw [write_allowed_none fuel st data user hvc hg hm] at hw
          cases hw
          exact hcont _ hg (by simp) (by simp [afterGate_lookupOps]) (by simp)
        | some m =>
          by_cases hsplit :
              m ≤ ((alookup (afterGate (gateCache st user).2 user).audioData user).getD []).length
          · rw [write_split fuel st data user m hvc hg hm hsplit] at hw
            have hrec := ih _ data user st' hw
            set st4 := (cleanup_one (afterGate (gateCache st user).2 user) user
              LeaveReason.CONTINUED).2 with hst4
            have h4vc : st4.vc = true := by
              rw [hst4, cleanup_one_vc, afterGate_vc, gateCache_vc]; exact hvc
            have h4c : alookup st4.cache user = some true := by
              have hgc := gateCache_cache_self st user
              rw [hg] at hgc
              rw [hst4, cleanup_one_cache, afterGate_cache]
              exact hgc
            have h4u : st4.db.users = (gateCache st user).2.db.users := by
              rw [hst4, cleanup_one_users, afterGate_users]
            have h4t : lookupOps st4.trace = lookupOps (gateCache st user).2.trace := by
              rw [hst4, cleanup_one_lookupOps, afterGate_lookupOps]
            rcases hrec with ⟨hru, hrt, hrc⟩
            refine hcont st' hg ?_ ?_ ?_
            · rw [hru]
              simp [h4vc, h4c, h4u]
            · rw [hrt]
              simp [h4vc, h4c, h4t]
            · rw [hrc]
              have hgc2 := gateCache_cache_self st user
              rw [hg] at hgc2
              simp [h4vc, h4c, hgc2]
          · rw [write_allowed_nosplit fuel st data user m hvc hg hm
              (Nat.not_le.mp hsplit)] at hw
            cases hw
            exact hcont _ hg (by simp) (by simp [afterGate_lookupOps]) (by simp)

end BigBrother

namespace BigBrother

/-- C5: the per-speaker access decision is memoized for the lifetime of
one sink instance: a write for an uncached speaker performs exactly one
`users` lookup — inserting a default-allow row and caching `true` when no
row exists, otherwise caching the stored flag — and a write for a cached
speaker performs none and leaves the `users` table untouched; either way
the decision is in the cache afterwards, so every subsequent write hits
it. -/
theorem C5_access_memoized (st : SinkState) (data : Bytes) (user : Nat) (st' : SinkState)
    (hvc : st.vc = true) (hw : write 2 st data user = some st') :
    lookupOps st'.trace = lookupOps st.trace +
      (if alookup st.cache user = none then 1 else 0) ∧
    alookup st'.cache user =
      some ((alookup st.cache user).getD ((userFlag st.db user).getD true)) ∧
    st'.db.users = (if alookup st.cache user = none ∧ userFlag st.db user = none
      then st.db.users ++ [⟨user, true⟩] else st.db.users) := by
  obtain ⟨hu, ht, hc⟩ := write_gate_effect 2 st data user st' hw
  rw [hvc] at hu ht hc
  simp only [true_and, if_true] at hu ht hc
  exact ⟨ht, hc, hu⟩

/-- C5 witness: the first write of speaker 7 against a fresh sink with an
empty `users` table does one lookup, inserts the default-allow row and
caches `true`. -/
theorem C5_access_memoized_witness :
    lookupOps stC5r.trace = lookupOps stC5.trace +
      (if alookup stC5.cache 7 = none then 1 else 0) ∧
    alookup stC5r.cache 7 =
      some ((alookup stC5.cache 7).getD ((userFlag stC5.db 7).getD true)) ∧
    stC5r.db.users = (if alookup stC5.cache 7 = none ∧ userFlag stC5.db 7 = none
      then stC5.db.users ++ [⟨7, true⟩] else stC5.db.users) :=
  C5_access_memoized stC5 [1] 7 stC5r rfl (by decide)

/-- One write of a frame for a disallowed speaker is a silent no-op:
no buffer, no session mapping, no session row, no `users` change; the
denial stays cached for the next frame. -/
theorem write_denied_frame (fuel : Nat) (st : SinkState) (data : Bytes) (user : Nat)
    (hvc : st.vc = true) (hd : disallowed st user) :
    ∃ st1, write (fuel + 1) st data user = some st1 ∧
      st1.audioData = st.audioData ∧ st1.sessionsMap = st.sessionsMap ∧
      st1.db.sessions = st.db.sessions ∧ st1.db.users = st.db.users ∧
      st1.vc = true ∧ disallowed st1 user := by
  rcases hd with hcf | ⟨hcn, hfl⟩
  · have hg : gateCache st user = (false, st) := gateCache_hit st user false hcf
    refine ⟨st, ?_, rfl, rfl, rfl, rfl, hvc, Or.inl hcf⟩
    rw [write_denied fuel st data user hvc (by rw [hg])]
    rw [hg]
  · obtain ⟨r, hfr, hrb⟩ := userFlag_eq_some st.db user false hfl
    have hg := gateCache_miss_present st user r hcn hfr
    refine ⟨{ st with cache := aset st.cache user r.can_listen,
                      trace := st.trace ++ [Op.userLookup user] },
        ?_, rfl, rfl, rfl, rfl, hvc, ?_⟩
    · rw [write_denied fuel st data user hvc (by rw [hg]; exact hrb)]
      rw [hg]
    · left
      show alookup (aset st.cache user r.can_listen) user = some false
      rw [alookup_aset_self, hrb]

/-- C6: for a speaker whose access check resolves to disallowed, any
number of frame writes is a silent no-op: the run completes without
error, and neither the frame-buffer map, nor the session map, nor the
`sessions` table, nor the `users` table changes. -/
theorem C6_denied_silent (st : SinkState) (user : Nat) (frames : List Bytes)
    (hvc : st.vc = true) (hd : disallowed st user) :
    ∃ st', writeMany user frames st = some st' ∧
      st'.audioData = st.audioData ∧ st'.sessionsMap = st.sessionsMap ∧
      st'.db.sessions = st.db.sessions ∧ st'.db.users = st.db.users := by
  induction frames generalizing st with
  | nil => exact ⟨st, rfl, rfl, rfl, rfl, rfl⟩
  | cons f fs ih =>
    obtain ⟨st1, hw1, ha1, hs1, hdb1, hu1, hvc1, hd1⟩ :=
      write_denied_frame 1 st f user hvc hd
    obtain ⟨st', hw', ha', hs', hdb', hu'⟩ := ih st1 hvc1 hd1
    refine ⟨st', ?_, ?_, ?_, ?_, ?_⟩
    · unfold writeMany
      rw [hw1]
      exact hw'
    · rw [ha', ha1]
    · rw [hs', hs1]
    · rw [hdb', hdb1]
    · rw [hu', hu1]

/-- C6 witness: two frames of the stored-disallowed speaker 3 leave the
sessions table of `stC6` unchanged (and the run completes). -/
theorem C6_denied_silent_witness :
    (writeMany 3 [[1], [2]] stC6).map (fun s => s.db.sessions) = some stC6.db.sessions := by
  obtain ⟨st', hw, _, _, hdb, _⟩ :=
    C6_denied_silent stC6 3 [[1], [2]] rfl (Or.inr ⟨rfl, rfl⟩)
  rw [hw]
  simp [hdb]

end BigBrother

namespace BigBrother

/-! ### Claim C8: the open-or-finished row invariant -/

theorem cleanup_one_of_none (st : SinkState) (u : Nat) (reason : LeaveReason)
    (hb : alookup st.audioData u = none) : (cleanup_one st u reason).2 = st := by
  unfold cleanup_one
  rw [hb]

theorem cleanup_one_sessions_of_some (st : SinkState) (u : Nat) (reason : LeaveReason)
    (b : Bytes) (hb : alookup st.audioData u = some b) :
    (cleanup_one st u reason).2.db.sessions =
      st.db.sessions.map (fun r => if some r.id = alookup st.sessionsMap u
        then { r with ended_at := some st.now,
                      data := some (zlibCompress b),
                      leave_reason := some reason }
        else r) := by
  unfold cleanup_one
  rw [hb]

theorem allOk_of_sessions_eq (d1 d2 : DB) (h : d1.sessions = d2.sessions)
    (h2 : AllOk d2) : AllOk d1 := by
  intro r hr
  rw [h] at hr
  exact h2 r hr

theorem allOk_cleanup_one (st : SinkState) (u : Nat) (reason : LeaveReason)
    (h : AllOk st.db) : AllOk (cleanup_one st u reason).2.db := by
  cases hb : alookup st.audioData u with
  | none => rw [cleanup_one_of_none st u reason hb]; exact h
  | some b =>
    intro r hr
    rw [cleanup_one_sessions_of_some st u reason b hb] at hr
    obtain ⟨r0, hr0, rfl⟩ := List.mem_map.mp hr
    by_cases hid : some r0.id = alookup st.sessionsMap u
    · rw [if_pos hid]
      right
      exact ⟨by simp, by simp, by simp⟩
    · rw [if_neg hid]
      exact h r0 hr0

theorem allOk_ensureSession (st : SinkState) (u : Nat) (h : AllOk st.db) :
    AllOk (ensureSession st u).db := by
  unfold ensureSession
  split
  · exact h
  · intro r hr
    simp only [List.mem_append, List.mem_singleton] at hr
    rcases hr with hr | rfl
    · exact h r hr
    · left
      exact ⟨rfl, rfl, rfl⟩

theorem allOk_write : ∀ (fuel : Nat) (st : SinkState) (data : Bytes) (user : Nat)
    (st' : SinkState), write fuel st data user = some st' → AllOk st.db → AllOk st'.db := by
  intro fuel
  induction fuel with
  | zero => intro st data user st' hw; exact absurd hw (by simp [write])
  | succ fuel ih =>
    intro st data user st' hw h
    have hgall : AllOk (afterGate (gateCache st user).2 user).db := by
      have hga : AllOk (gateCache st user).2.db :=
        allOk_of_sessions_eq _ _ (gateCache_sessions st user) h
      have hgb : AllOk (ensureBuffer (gateCache st user).2 user).db := by
        rw [ensureBuffer_db]
        exact hga
      unfold afterGate
      exact allOk_ensureSession _ _ hgb
    by_cases hvc : st.vc = true
    case neg =>
      have hf : st.vc = false := by revert hvc; cases st.vc <;> simp
      rw [write_vc_false fuel st data user hf] at hw
      cases hw
      exact h
    case pos =>
      cases hg : (gateCache st user).1 with
      | false =>
        rw [write_denied fuel st data user hvc hg] at hw
        cases hw
        exact allOk_of_sessions_eq _ _ (gateCache_sessions st user) h
      | true =>
        cases hm : st.maxFileLen with
        | none =>
          rw [write_allowed_none fuel st data user hvc hg hm] at hw
          cases hw
          show AllOk (appendFrame (afterGate (gateCache st user).2 user) user data).db
          rw [appendFrame_db]
          exact hgall
        | some m =>
          by_cases hsplit :
              m ≤ ((alookup (afterGate (gateCache st user).2 user).audioData user).getD []).length
          · rw [write_split fuel st data user m hvc hg hm hsplit] at hw
            exact ih _ data user st' hw (allOk_cleanup_one _ user LeaveReason.CONTINUED hgall)
          · rw [write_allowed_nosplit fuel st data user m hvc hg hm
              (Nat.not_le.mp hsplit)] at hw
            cases hw
            show AllOk (appendFrame (afterGate (gateCache st user).2 user) user data).db
            rw [appendFrame_db]
            exact hgall

theorem foldl_cleanup_preserve (reason : LeaveReason) (P : SinkState → Prop)
    (hP : ∀ s u, P s → P (cleanup_one s u reason).2) :
    ∀ (us : List Nat) (s : SinkState), P s →
      P (us.foldl (fun s u => (cleanup_one s u reason).2) s) := by
  intro us
  induction us with
  | nil => intro s h; exact h
  | cons u rest ih => intro s h; exact ih _ (hP s u h)

theorem allOk_cleanup (st : SinkState) (reason : LeaveReason) (h : AllOk st.db) :
    AllOk (cleanup st reason).db := by
  unfold cleanup
  have hfold := foldl_cleanup_preserve reason (fun s => AllOk s.db)
    (fun s u hs => allOk_cleanup_one s u reason hs)
    (({ st with finished := true } : SinkState).audioData.map (fun p => p.1))
    { st with finished := true } h
  exact allOk_of_sessions_eq _ _ rfl hfold

/-- C8: every storage write the engine issues preserves the session-state
invariant "open (all of `ended_at`, `data`, `leave_reason` absent) or
finished (all three present)": a session open inserts a row with the
three fields absent, a finalize sets all three in one update, and no
reachable write of `write`, `cleanup_one` or `cleanup` leaves a row with
only some of the three present. -/
theorem C8_storage_invariant :
    (∀ (fuel : Nat) (st : SinkState) (data : Bytes) (user : Nat),
      AllOk st.db → AllOkO (write fuel st data user)) ∧
    (∀ (st : SinkState) (user : Nat) (reason : LeaveReason),
      AllOk st.db → AllOk (cleanup_one st user reason).2.db) ∧
    (∀ (st : SinkState) (reason : LeaveReason),
      AllOk st.db → AllOk (cleanup st reason).db) := by
  refine ⟨?_, ?_, ?_⟩
  · intro fuel st data user h s hs
    exact allOk_write fuel st data user s (Option.mem_def.mp hs) h
  · intro st user reason h
    exact allOk_cleanup_one st user reason h
  · intro st reason h
    exact allOk_cleanup st reason h

/-- C8 witness: the invariant holds across a concrete write (which opens
nothing new here but appends a frame), a concrete finalize and a concrete
cleanup of the two-speaker sink `stC7`. -/
theorem C8_storage_invariant_witness :
    AllOkO (write 2 stC7 [1] 1) ∧
    AllOk (cleanup_one stC7 1 LeaveReason.NATURAL).2.db ∧
    AllOk (cleanup stC7 LeaveReason.BOT_DISCONNECTED).db :=
  ⟨C8_storage_invariant.1 2 stC7 [1] 1 (by decide),
   C8_storage_invariant.2.1 stC7 1 LeaveReason.NATURAL (by decide),
   C8_storage_invariant.2.2 stC7 LeaveReason.BOT_DISCONNECTED (by decide)⟩

end BigBrother

namespace BigBrother

/-! ### Claim C10: session-map domain contained in buffer-map domain -/

theorem mem_aset {α : Type} (l : List (Nat × α)) (k : Nat) (v : α) (p : Nat × α)
    (h : p ∈ aset l k v) : p = (k, v) ∨ p ∈ l := by
  induction l with
  | nil =>
    simp [aset] at h
    exact Or.inl h
  | cons q r ih =>
    by_cases hq : q.1 = k
    · rw [aset, if_pos hq] at h
      rcases List.mem_cons.mp h with rfl | hr
      · exact Or.inl rfl
      · exact Or.inr (List.mem_cons_of_mem q hr)
    · rw [aset, if_neg hq] at h
      rcases List.mem_cons.mp h with rfl | hr
      · exact Or.inr (List.mem_cons_self _ _)
      · rcases ih hr with h1 | h2
        · exact Or.inl h1
        · exact Or.inr (List.mem_cons_of_mem q h2)

theorem mem_aerase {α : Type} (l : List (Nat × α)) (k : Nat) (p : Nat × α)
    (h : p ∈ aerase l k) : p ∈ l ∧ p.1 ≠ k := by
  induction l with
  | nil => simp [aerase] at h
  | cons q r ih =>
    by_cases hq : q.1 = k
    · rw [aerase, if_pos hq] at h
      obtain ⟨h1, h2⟩ := ih h
      exact ⟨List.mem_cons_of_mem q h1, h2⟩
    · rw [aerase, if_neg hq] at h
      rcases List.mem_cons.mp h with rfl | hr
      · exact ⟨List.mem_cons_self _ _, hq⟩
      · obtain ⟨h1, h2⟩ := ih hr
        exact ⟨List.mem_cons_of_mem q h1, h2⟩

theorem subDom_of_eq (s1 s2 : SinkState) (ha : s1.audioData = s2.audioData)
    (hs : s1.sessionsMap = s2.sessionsMap) (h : SubDom s2) : SubDom s1 := by
  intro p hp
  rw [ha]
  rw [hs] at hp
  exact h p hp

theorem subDom_ensureBuffer (st : SinkState) (u : Nat) (h : SubDom st) :
    SubDom (ensureBuffer st u) := by
  unfold ensureBuffer
  split
  · exact h
  · intro p hp
    simp only at hp ⊢
    by_cases hu : p.1 = u
    · rw [hu, alookup_aset_self]
      rfl
    · rw [alookup_aset_ne st.audioData u p.1 [] hu]
      exact h p hp

theorem subDom_ensureSession (st : SinkState) (u : Nat)
    (hb : (alookup st.audioData u).isSome) (h : SubDom st) :
    SubDom (ensureSession st u) := by
  unfold ensureSession
  split
  · exact h
  · intro p hp
    simp only at hp ⊢
    rcases mem_aset st.sessionsMap u st.db.nextId p hp with rfl | hmem
    · exact hb
    · exact h p hmem

theorem subDom_afterGate (st : SinkState) (u : Nat) (h : SubDom st) :
    SubDom (afterGate st u) := by
  unfold afterGate
  exact subDom_ensureSession (ensureBuffer st u) u (ensureBuffer_lookup_self st u)
    (subDom_ensureBuffer st u h)

theorem subDom_appendFrame (st : SinkState) (u : Nat) (d : Bytes) (h : SubDom st) :
    SubDom (appendFrame st u d) := by
  intro p hp
  show (alookup (aset st.audioData u _) p.1).isSome
  by_cases hu : p.1 = u
  · rw [hu, alookup_aset_self]
    rfl
  · rw [alookup_aset_ne st.audioData u p.1 _ hu]
    exact h p hp

theorem subDom_cleanup_one (st : SinkState) (u : Nat) (reason : LeaveReason)
    (h : SubDom st) : SubDom (cleanup_one st u reason).2 := by
  cases hb : alookup st.audioData u with
  | none => rw [cleanup_one_of_none st u reason hb]; exact h
  | some b =>
    intro p hp
    unfold cleanup_one at hp ⊢
    rw [hb] at hp ⊢
    simp only at hp ⊢
    obtain ⟨hmem, hne⟩ := mem_aerase st.sessionsMap u p hp
    rw [alookup_aerase_ne st.audioData u p.1 hne]
    exact h p hmem

theorem subDom_write : ∀ (fuel : Nat) (st : SinkState) (data : Bytes) (user : Nat)
    (st' : SinkState), write fuel st data user = some st' → SubDom st → SubDom st' := by
  intro fuel
  induction fuel with
  | zero => intro st data user st' hw; exact absurd hw (by simp [write])
  | succ fuel ih =>
    intro st data user st' hw h
    have hgsub : SubDom (afterGate (gateCache st user).2 user) :=
      subDom_afterGate _ user
        (subDom_of_eq _ st (gateCache_audioData st user) (gateCache_sessionsMap st user) h)
    by_cases hvc : st.vc = true
    case neg =>
      have hf : st.vc = false := by revert hvc; cases st.vc <;> simp
      rw [write_vc_false fuel st data user hf] at hw
      cases hw
      exact h
    case pos =>
      cases hg : (gateCache st user).1 with
      | false =>
        rw [write_denied fuel st data user hvc hg] at hw
        cases hw
        exact subDom_of_eq _ st (gateCache_audioData st user) (gateCache_sessionsMap st user) h
      | true =>
        cases hm : st.maxFileLen with
        | none =>
          rw [write_allowed_none fuel st data user hvc hg hm] at hw
          cases hw
          exact subDom_appendFrame _ user data hgsub
        | some m =>
          by_cases hsplit :
              m ≤ ((alookup (afterGate (gateCache st user).2 user).audioData user).getD []).length
          · rw [write_split fuel st data user m hvc hg hm hsplit] at hw
            exact ih _ data user st' hw
              (subDom_cleanup_one _ user LeaveReason.CONTINUED hgsub)
          · rw [write_allowed_nosplit fuel st data user m hvc hg hm
              (Nat.not_le.mp hsplit)] at hw
            cases hw
            exact subDom_appendFrame _ user data hgsub

theorem subDom_cleanup (st : SinkState) (reason : LeaveReason) (h : SubDom st) :
    SubDom (cleanup st reason) := by
  unfold cleanup
  have hfold := foldl_cleanup_preserve reason SubDom
    (fun s u hs => subDom_cleanup_one s u reason hs)
    (({ st with finished := true } : SinkState).audioData.map (fun p => p.1))
    { st with finished := true } h
  exact subDom_of_eq _ _ rfl rfl hfold

/-- C10: every speaker with an open session id in `_sessions` also has a
frame-buffer entry in `audio_data` (the session map's domain is contained
in the buffer map's domain): `write` creates the buffer before opening a
session, `cleanup_one` removes the session mapping only together with the
popped buffer, and `cleanup` folds `cleanup_one`, so each public
operation preserves the invariant. -/
theorem C10_sessions_sub_buffers :
    (∀ (fuel : Nat) (st : SinkState) (data : Bytes) (user : Nat),
      SubDom st → SubDomO (write fuel st data user)) ∧
    (∀ (st : SinkState) (user : Nat) (reason : LeaveReason),
      SubDom st → SubDom (cleanup_one st user reason).2) ∧
    (∀ (st : SinkState) (reason : LeaveReason),
      SubDom st → SubDom (cleanup st reason)) := by
  refine ⟨?_, ?_, ?_⟩
  · intro fuel st data user h s hs
    exact subDom_write fuel st data user s (Option.mem_def.mp hs) h
  · intro st user reason h
    exact subDom_cleanup_one st user reason h
  · intro st reason h
    exact subDom_cleanup st reason h

/-- C10 witness: the invariant holds across a concrete write, finalize
and cleanup of the two-speaker sink `stC7`. -/
theorem C10_sessions_sub_buffers_witness :
    SubDomO (write 2 stC7 [1] 2) ∧
    SubDom (cleanup_one stC7 2 LeaveReason.NATURAL).2 ∧
    SubDom (cleanup stC7 LeaveReason.NATURAL) :=
  ⟨C10_sessions_sub_buffers.1 2 stC7 [1] 2 (by decide),
   C10_sessions_sub_buffers.2.1 stC7 2 LeaveReason.NATURAL (by decide),
   C10_sessions_sub_buffers.2.2 stC7 LeaveReason.NATURAL (by decide)⟩

end BigBrother

namespace BigBrother

/-! ### Claim C2: the recall query -/

theorem zlibDecompress_inv (y x : Bytes) (h : zlibDecompress y = some x) :
    y = zlibCompress x := by
  unfold zlibDecompress at h
  match y, h with
  | 120 :: rest, h =>
    cases h
    rfl

theorem mapM_decompress_inv : ∀ (chunks us : List Bytes),
    chunks.mapM zlibDecompress = some us → us.map zlibCompress = chunks := by
  intro chunks
  induction chunks with
  | nil =>
    intro us h
    simp only [List.mapM_nil, pure, Option.some.injEq] at h
    rw [← h]
    rfl
  | cons c cs ih =>
    intro us h
    rw [List.mapM_cons] at h
    cases hc : zlibDecompress c with
    | none => rw [hc] at h; simp at h
    | some x =>
      rw [hc] at h
      cases hcs : cs.mapM zlibDecompress with
      | none => rw [hcs] at h; simp at h
      | some xs =>
        rw [hcs] at h
        simp at h
        subst h
        simp only [List.map_cons]
        rw [ih xs hcs, ← zlibDecompress_inv c x hc]

theorem filterMap_data_eq : ∀ (l : List SessionRow), (∀ r ∈ l, r.data.isSome) →
    l.filterMap (fun r => r.data) = l.map (fun r => r.data.getD []) := by
  intro l
  induction l with
  | nil => intro; rfl
  | cons r rs ih =>
    intro h
    have hr : r.data.isSome := h r (List.mem_cons_self _ _)
    cases hd : r.data with
    | none => rw [hd] at hr; simp at hr
    | some v =>
      simp only [List.filterMap_cons, hd, List.map_cons, Option.getD_some]
      rw [ih (fun q hq => h q (List.mem_cons_of_mem r hq))]

/-- C2: under the session-state invariant and a table in chronological
(insertion) order, the recall query selects exactly the finished sessions
of the requested speaker with start time at or after the resolved
`startingAt`, keeps them in ascending start-time order, hands their
payloads over in that row order, and the parallel decompression (futures
awaited in creation order) maps those chunks in place, so the transcoder
receives the sequence in chronological session order. -/
theorem C2_recall_query (db : DB) (who s : Nat)
    (hsort : db.sessions.Pairwise (fun a b => a.started_at ≤ b.started_at))
    (hok : AllOk db) :
    (∀ r, r ∈ recallRows db who s ↔
      (r ∈ db.sessions ∧ r.user_id = who ∧ s ≤ r.started_at ∧ finishedRow r)) ∧
    (recallRows db who s).Pairwise (fun a b => a.started_at ≤ b.started_at) ∧
    recallChunks db who s = (recallRows db who s).map (fun r => r.data.getD []) ∧
    (∀ us, recallDecompressed db who s = some us →
      us.map zlibCompress = recallChunks db who s) := by
  have hmem : ∀ r, r ∈ recallRows db who s ↔
      (r ∈ db.sessions ∧ r.user_id = who ∧ s ≤ r.started_at ∧ finishedRow r) := by
    intro r
    unfold recallRows
    rw [List.mem_filter]
    constructor
    · rintro ⟨hr, hp⟩
      simp only [Bool.and_eq_true, beq_iff_eq, decide_eq_true_eq] at hp
      obtain ⟨⟨hu, ht⟩, hd⟩ := hp
      refine ⟨hr, hu, ht, ?_⟩
      rcases hok r hr with hopen | hfin
      · rw [hopen.2.1] at hd
        simp at hd
      · exact hfin
    · rintro ⟨hr, hu, ht, hfin⟩
      refine ⟨hr, ?_⟩
      simp only [Bool.and_eq_true, beq_iff_eq, decide_eq_true_eq]
      refine ⟨⟨hu, ht⟩, ?_⟩
      rw [Option.isSome_iff_ne_none]
      exact hfin.2.1
  refine ⟨hmem, ?_, ?_, ?_⟩
  · exact List.Pairwise.sublist (List.filter_sublist db.sessions) hsort
  · unfold recallChunks
    apply filterMap_data_eq
    intro r hr
    have := (hmem r).mp hr
    rw [Option.isSome_iff_ne_none]
    exact this.2.2.2.2.1
  · intro us h
    exact mapM_decompress_inv _ us h

/-- C2 witness: against the concrete chronological store `exdbC2`, the
query result for speaker 7 from time 2 is sorted and its chunk sequence
is the selected rows' payloads in row order. -/
theorem C2_recall_query_witness :
    (recallRows exdbC2 7 2).Pairwise (fun a b => a.started_at ≤ b.started_at) ∧
    recallChunks exdbC2 7 2 = (recallRows exdbC2 7 2).map (fun r => r.data.getD []) := by
  have h := C2_recall_query exdbC2 7 2 (by decide) (by decide)
  exact ⟨h.2.1, h.2.2.1⟩

end BigBrother

namespace BigBrother

/-! ### Claim C7: cleanup finalizes all buffered speakers -/

theorem key_lookup_isSome {α : Type} (l : List (Nat × α)) (k : Nat)
    (h : k ∈ l.map (fun p => p.1)) : (alookup l k).isSome := by
  induction l with
  | nil => simp at h
  | cons p r ih =>
    by_cases hp : p.1 = k
    · simp [hp]
    · simp only [List.map_cons, List.mem_cons] at h
      rcases h with h | h
      · exact absurd h (fun hh => hp hh.symm)
      · simp [hp, ih h]

theorem map_update_id (rows : List SessionRow) (f : SessionRow → SessionRow)
    (h : ∀ r ∈ rows, f r = r) : rows.map f = rows := by
  induction rows with
  | nil => rfl
  | cons q rest ih =>
    rw [List.map_cons, h q (List.mem_cons_self _ _),
      ih (fun r hr => h r (List.mem_cons_of_mem q hr))]

theorem filterMap_nodup_of_inj {α : Type} (f : Nat → Option α) :
    ∀ (ks : List Nat), ks.Nodup →
    (∀ u1 ∈ ks, ∀ u2 ∈ ks, u1 ≠ u2 → f u1 ≠ f u2) →
    (∀ u ∈ ks, (f u).isSome) →
    (ks.filterMap f).Nodup := by
  intro ks
  induction ks with
  | nil => intro _ _ _; simp
  | cons u rest ih =>
    intro hnd hinj hsome
    obtain ⟨hu_nin, hrest_nd⟩ := List.nodup_cons.mp hnd
    obtain ⟨v, hv⟩ := Option.isSome_iff_exists.mp (hsome u (List.mem_cons_self _ _))
    rw [List.filterMap_cons, hv]
    rw [List.nodup_cons]
    constructor
    · intro hmem
      obtain ⟨u2, hu2, hfu2⟩ := List.mem_filterMap.mp hmem
      have hne : u ≠ u2 := fun hh => hu_nin (hh ▸ hu2)
      exact hinj u (List.mem_cons_self _ _) u2 (List.mem_cons_of_mem u hu2) hne
        (by rw [hv, hfu2])
    · exact ih hrest_nd
        (fun u1 h1 u2 h2 => hinj u1 (List.mem_cons_of_mem u h1) u2 (List.mem_cons_of_mem u h2))
        (fun u1 h1 => hsome u1 (List.mem_cons_of_mem u h1))

theorem countP_finish_update (tnow : Nat) (pl : Bytes) (reason : LeaveReason) :
    ∀ (rows : List SessionRow) (sid : Nat),
    (rows.map (fun r => r.id)).Nodup →
    ∀ r0 ∈ rows, r0.id = sid → openRow r0 →
    (rows.map (fun r => if some r.id = some sid
        then { r with ended_at := some tnow, data := some pl, leave_reason := some reason }
        else r)).countP (fun r => decide (finishedRow r)) =
      rows.countP (fun r => decide (finishedRow r)) + 1 := by
  intro rows
  induction rows with
  | nil => intro sid _ r0 hr0; simp at hr0
  | cons q rest ih =>
    intro sid hnd r0 hr0 hid hopen
    rw [List.map_cons, List.nodup_cons] at hnd
    obtain ⟨hq_nin, hrest_nd⟩ := hnd
    rcases List.mem_cons.mp hr0 with rfl | hr0rest
    · have hq : some r0.id = some sid := by rw [hid]
      have hrest_id : rest.map (fun r => if some r.id = some sid
          then { r with ended_at := some tnow, data := some pl, leave_reason := some reason }
          else r) = rest := by
        apply map_update_id
        intro r hr
        have hne : r.id ≠ sid := by
          intro hh
          exact hq_nin (hid ▸ hh ▸ List.mem_map_of_mem (fun r => r.id) hr)
        rw [if_neg (by simpa using hne)]
      rw [List.map_cons, if_pos hq, List.countP_cons, List.countP_cons, hrest_id]
      have h1 : finishedRow ({ r0 with ended_at := some tnow,
                                       data := some pl,
                                       leave_reason := some reason } : SessionRow) :=
        ⟨by simp, by simp, by simp⟩
      have h2 : ¬ finishedRow r0 := fun hf => hf.1 hopen.1
      simp [h1, h2]
    · have hqne : q.id ≠ sid := by
        rw [← hid]
        intro hh
        exact hq_nin (hh ▸ List.mem_map_of_mem (fun r => r.id) hr0rest)
      rw [List.map_cons, if_neg (by simpa using hqne), List.countP_cons, List.countP_cons,
        ih sid hrest_nd r0 hr0rest hid hopen]
      ring

theorem cleanup_one_trace_of_some (st : SinkState) (u : Nat) (reason : LeaveReason)
    (b : Bytes) (hb : alookup st.audioData u = some b) :
    (cleanup_one st u reason).2.trace =
      st.trace ++ [Op.sessionUpdate (alookup st.sessionsMap u)] := by
  unfold cleanup_one
  rw [hb]

theorem cleanup_one_smap_of_some (st : SinkState) (u : Nat) (reason : LeaveReason)
    (b : Bytes) (hb : alookup st.audioData u = some b) :
    (cleanup_one st u reason).2.sessionsMap = aerase st.sessionsMap u := by
  unfold cleanup_one
  rw [hb]

end BigBrother

namespace BigBrother

theorem map_congr_mem {α β : Type} (l : List α) (f g : α → β)
    (h : ∀ a ∈ l, f a = g a) : l.map f = l.map g := by
  induction l with
  | nil => rfl
  | cons a rest ih =>
    rw [List.map_cons, List.map_cons, h a (List.mem_cons_self _ _),
      ih (fun x hx => h x (List.mem_cons_of_mem a hx))]

theorem filterMap_congr_mem {α β : Type} (l : List α) (f g : α → Option β)
    (h : ∀ a ∈ l, f a = g a) : l.filterMap f = l.filterMap g := by
  induction l with
  | nil => rfl
  | cons a rest ih =>
    rw [List.filterMap_cons, List.filterMap_cons, h a (List.mem_cons_self _ _),
      ih (fun x hx => h x (List.mem_cons_of_mem a hx))]

/-- Effect of one successful `cleanup_one` on the store: one more finished
row (the speaker's open row, updated in place), the finalizing update in
the trace, ids unchanged, and every row with a different id untouched. -/
theorem cleanup_one_step (st : SinkState) (u : Nat) (reason : LeaveReason)
    (b : Bytes) (hb : alookup st.audioData u = some b)
    (sid : Nat) (hs : alookup st.sessionsMap u = some sid)
    (hids : (st.db.sessions.map (fun r => r.id)).Nodup)
    (r0 : SessionRow) (hr0 : r0 ∈ st.db.sessions) (hid : r0.id = sid)
    (hopen : openRow r0) :
    countFinished (cleanup_one st u reason).2.db = countFinished st.db + 1 ∧
    (∃ r1 ∈ (cleanup_one st u reason).2.db.sessions,
      r1.id = sid ∧ finishedRow r1 ∧ r1.leave_reason = some reason) ∧
    (cleanup_one st u reason).2.trace = st.trace ++ [Op.sessionUpdate (some sid)] ∧
    (cleanup_one st u reason).2.db.sessions.map (fun r => r.id) =
      st.db.sessions.map (fun r => r.id) ∧
    (∀ r1 ∈ st.db.sessions, r1.id ≠ sid → r1 ∈ (cleanup_one st u reason).2.db.sessions) := by
  have hsess := cleanup_one_sessions_of_some st u reason b hb
  rw [hs] at hsess
  refine ⟨?_, ?_, ?_, ?_, ?_⟩
  · unfold countFinished
    rw [hsess]
    exact countP_finish_update st.now (zlibCompress b) reason st.db.sessions sid hids
      r0 hr0 hid hopen
  · rw [hsess]
    have hcond : some r0.id = some sid := by rw [hid]
    refine ⟨if some r0.id = some sid
        then { r0 with ended_at := some st.now,
                       data := some (zlibCompress b),
                       leave_reason := some reason }
        else r0, List.mem_map_of_mem _ hr0, ?_⟩
    rw [if_pos hcond]
    exact ⟨hid, ⟨by simp, by simp, by simp⟩, rfl⟩
  · have ht := cleanup_one_trace_of_some st u reason b hb
    rw [hs] at ht
    exact ht
  · rw [hsess, List.map_map]
    apply map_congr_mem
    intro r hr
    simp only [Function.comp]
    split <;> rfl
  · intro r1 hr1 hne
    rw [hsess]
    have hupd : (fun r => if some r.id = some sid
        then { r with ended_at := some st.now,
                      data := some (zlibCompress b),
                      leave_reason := some reason }
        else r) r1 = r1 := by
      simp only
      rw [if_neg (by simpa using hne)]
    have hm := List.mem_map_of_mem (fun r => if some r.id = some sid
        then { r with ended_at := some st.now,
                      data := some (zlibCompress b),
                      leave_reason := some reason }
        else r) hr1
    rw [hupd] at hm
    exact hm

/-- A row already finished with the cleanup's reason survives any further
`cleanup_one` with the same reason (an update either misses it or rewrites
it finished with that same reason). -/
theorem pfin_persist (reason : LeaveReason) (sid : Nat) (s : SinkState) (u : Nat)
    (h : ∃ r1 ∈ s.db.sessions, r1.id = sid ∧ finishedRow r1 ∧ r1.leave_reason = some reason) :
    ∃ r1 ∈ (cleanup_one s u reason).2.db.sessions,
      r1.id = sid ∧ finishedRow r1 ∧ r1.leave_reason = some reason := by
  obtain ⟨r1, hr1, hrid, hrfin, hrl⟩ := h
  cases hb : alookup s.audioData u with
  | none =>
    rw [cleanup_one_of_none s u reason hb]
    exact ⟨r1, hr1, hrid, hrfin, hrl⟩
  | some b =>
    rw [cleanup_one_sessions_of_some s u reason b hb]
    refine ⟨if some r1.id = alookup s.sessionsMap u
        then { r1 with ended_at := some s.now,
                       data := some (zlibCompress b),
                       leave_reason := some reason }
        else r1, List.mem_map_of_mem _ hr1, ?_⟩
    by_cases hc : some r1.id = alookup s.sessionsMap u
    · rw [if_pos hc]
      exact ⟨hrid, ⟨by simp, by simp, by simp⟩, rfl⟩
    · rw [if_neg hc]
      exact ⟨hrid, hrfin, hrl⟩

end BigBrother

namespace BigBrother

/-- Folding `cleanup_one` over distinct buffered speakers, each with an
open session row of a distinct id: the number of finished rows grows by
the number of speakers, the trace gains exactly their finalizing updates
in order, and each speaker's session row ends finished with the cleanup
reason. -/
theorem cleanup_fold (reason : LeaveReason) : ∀ (ks : List Nat) (st : SinkState),
    ks.Nodup →
    (∀ u ∈ ks, (alookup st.audioData u).isSome) →
    (∀ u ∈ ks, ∃ r ∈ st.db.sessions, some r.id = alookup st.sessionsMap u ∧ openRow r) →
    (st.db.sessions.map (fun r => r.id)).Nodup →
    (∀ u1 ∈ ks, ∀ u2 ∈ ks, u1 ≠ u2 →
      alookup st.sessionsMap u1 ≠ alookup st.sessionsMap u2) →
    countFinished (ks.foldl (fun s u => (cleanup_one s u reason).2) st).db =
        countFinished st.db + ks.length ∧
    (ks.foldl (fun s u => (cleanup_one s u reason).2) st).trace =
        st.trace ++ (ks.filterMap (fun u => alookup st.sessionsMap u)).map
          (fun i => Op.sessionUpdate (some i)) ∧
    (ks.filterMap (fun u => alookup st.sessionsMap u)).length = ks.length ∧
    (∀ u ∈ ks, ∃ sid, alookup st.sessionsMap u = some sid ∧
      ∃ r1 ∈ (ks.foldl (fun s u => (cleanup_one s u reason).2) st).db.sessions,
        r1.id = sid ∧ finishedRow r1 ∧ r1.leave_reason = some reason) ∧
    (ks.foldl (fun s u => (cleanup_one s u reason).2) st).eventCount = st.eventCount := by
  intro ks
  induction ks with
  | nil =>
    intro st _ _ _ _ _
    exact ⟨by simp, by simp, rfl, by simp, rfl⟩
  | cons u rest ih =>
    intro st hnd hbuf hopen hids hdist
    obtain ⟨hu_nin, hrest_nd⟩ := List.nodup_cons.mp hnd
    obtain ⟨b, hb⟩ := Option.isSome_iff_exists.mp (hbuf u (List.mem_cons_self _ _))
    obtain ⟨r0, hr0, hr0id, hr0open⟩ := hopen u (List.mem_cons_self _ _)
    have hs : alookup st.sessionsMap u = some r0.id := hr0id.symm
    obtain ⟨hcount, hex, htrace, hidmap, hframe⟩ :=
      cleanup_one_step st u reason b hb r0.id hs hids r0 hr0 rfl hr0open
    set s1 := (cleanup_one st u reason).2 with hs1
    have hfe : List.foldl (fun s u => (cleanup_one s u reason).2) st (u :: rest) =
        List.foldl (fun s u => (cleanup_one s u reason).2) s1 rest := rfl
    have hLrest : ∀ u2 ∈ rest, u2 ≠ u := fun u2 h2 hh => hu_nin (hh ▸ h2)
    have hlook : ∀ u2 ∈ rest, alookup s1.sessionsMap u2 = alookup st.sessionsMap u2 := by
      intro u2 h2
      rw [hs1, cleanup_one_smap_of_some st u reason b hb]
      exact alookup_aerase_ne st.sessionsMap u u2 (hLrest u2 h2)
    have hbuf1 : ∀ u2 ∈ rest, (alookup s1.audioData u2).isSome := by
      intro u2 h2
      rw [hs1, cleanup_one_erases st u reason (by rw [hb]; rfl),
        alookup_aerase_ne st.audioData u u2 (hLrest u2 h2)]
      exact hbuf u2 (List.mem_cons_of_mem u h2)
    have hopen1 : ∀ u2 ∈ rest, ∃ r ∈ s1.db.sessions,
        some r.id = alookup s1.sessionsMap u2 ∧ openRow r := by
      intro u2 h2
      obtain ⟨r, hr, hrid, hropen⟩ := hopen u2 (List.mem_cons_of_mem u h2)
      have hrne : r.id ≠ r0.id := by
        intro hh
        apply hdist u2 (List.mem_cons_of_mem u h2) u (List.mem_cons_self _ _) (hLrest u2 h2)
        rw [← hrid, hs, hh]
      refine ⟨r, hframe r hr hrne, ?_, hropen⟩
      rw [hlook u2 h2]
      exact hrid
    have hids1 : (s1.db.sessions.map (fun r => r.id)).Nodup := by
      rw [hidmap]
      exact hids
    have hdist1 : ∀ u1 ∈ rest, ∀ u2 ∈ rest, u1 ≠ u2 →
        alookup s1.sessionsMap u1 ≠ alookup s1.sessionsMap u2 := by
      intro u1 h1 u2 h2 hne
      rw [hlook u1 h1, hlook u2 h2]
      exact hdist u1 (List.mem_cons_of_mem u h1) u2 (List.mem_cons_of_mem u h2) hne
    obtain ⟨icount, itrace, ilen, ifin, ievent⟩ := ih s1 hrest_nd hbuf1 hopen1 hids1 hdist1
    have hfmap : rest.filterMap (fun u2 => alookup s1.sessionsMap u2) =
        rest.filterMap (fun u2 => alookup st.sessionsMap u2) :=
      filterMap_congr_mem rest _ _ hlook
    refine ⟨?_, ?_, ?_, ?_, ?_⟩
    · rw [hfe, icount, hcount, List.length_cons]
      omega
    · rw [hfe, itrace, hfmap, htrace, List.filterMap_cons, hs, List.map_cons,
        List.append_assoc]
      rfl
    · rw [List.filterMap_cons, hs, List.length_cons, List.length_cons]
      rw [hfmap] at ilen
      rw [ilen]
    · intro u2 h2
      rcases List.mem_cons.mp h2 with rfl | h2rest
      · refine ⟨r0.id, hs, ?_⟩
        rw [hfe]
        exact foldl_cleanup_preserve reason
          (fun s => ∃ r1 ∈ s.db.sessions,
            r1.id = r0.id ∧ finishedRow r1 ∧ r1.leave_reason = some reason)
          (fun s u3 hsx => pfin_persist reason r0.id s u3 hsx) rest s1 hex
      · obtain ⟨sid2, hsid2, hrow2⟩ := ifin u2 h2rest
        refine ⟨sid2, ?_, ?_⟩
        · rw [← hlook u2 h2rest]
          exact hsid2
        · rw [hfe]
          exact hrow2
    · rw [hfe, ievent, hs1, cleanup_one_eventCount]

end BigBrother

namespace BigBrother

theorem cleanup_db (st : SinkState) (reason : LeaveReason) :
    (cleanup st reason).db = ((st.audioData.map (fun p => p.1)).foldl
      (fun s u => (cleanup_one s u reason).2) { st with finished := true }).db := rfl

theorem cleanup_trace (st : SinkState) (reason : LeaveReason) :
    (cleanup st reason).trace = ((st.audioData.map (fun p => p.1)).foldl
      (fun s u => (cleanup_one s u reason).2) { st with finished := true }).trace ++
      [Op.eventSet] := rfl

theorem cleanup_eventCount (st : SinkState) (reason : LeaveReason) :
    (cleanup st reason).eventCount = ((st.audioData.map (fun p => p.1)).foldl
      (fun s u => (cleanup_one s u reason).2) { st with finished := true }).eventCount + 1 :=
  rfl

/-- C7: `cleanup` with N buffered speakers (distinct keys, each holding an
open session row, session ids distinct) finalizes every one of them:
exactly N new finished rows, with the N distinct session identifiers of
the buffered speakers, each carrying the cleanup reason; and the
completion event is set exactly once, appended to the trace only after
all N finalizing storage updates. -/
theorem C7_cleanup_all (st : SinkState) (reason : LeaveReason)
    (hnd : (st.audioData.map (fun p => p.1)).Nodup)
    (hopen : ∀ u ∈ st.audioData.map (fun p => p.1),
      ∃ r ∈ st.db.sessions, some r.id = alookup st.sessionsMap u ∧ openRow r)
    (hids : (st.db.sessions.map (fun r => r.id)).Nodup)
    (hdist : ∀ u1 ∈ st.audioData.map (fun p => p.1),
      ∀ u2 ∈ st.audioData.map (fun p => p.1), u1 ≠ u2 →
        alookup st.sessionsMap u1 ≠ alookup st.sessionsMap u2) :
    countFinished (cleanup st reason).db = countFinished st.db + st.audioData.length ∧
    ((st.audioData.map (fun p => p.1)).filterMap
        (fun u => alookup st.sessionsMap u)).length = st.audioData.length ∧
    ((st.audioData.map (fun p => p.1)).filterMap
        (fun u => alookup st.sessionsMap u)).Nodup ∧
    (∀ sid ∈ (st.audioData.map (fun p => p.1)).filterMap
        (fun u => alookup st.sessionsMap u),
      ∃ r1 ∈ (cleanup st reason).db.sessions,
        r1.id = sid ∧ finishedRow r1 ∧ r1.leave_reason = some reason) ∧
    (cleanup st reason).eventCount = st.eventCount + 1 ∧
    (cleanup st reason).trace = st.trace ++
      ((st.audioData.map (fun p => p.1)).filterMap
        (fun u => alookup st.sessionsMap u)).map (fun i => Op.sessionUpdate (some i)) ++
      [Op.eventSet] ∧
    Op.eventSet ∉ ((st.audioData.map (fun p => p.1)).filterMap
        (fun u => alookup st.sessionsMap u)).map (fun i => Op.sessionUpdate (some i)) := by
  obtain ⟨hcount, htrace, hlen, hfin, hevent⟩ :=
    cleanup_fold reason (st.audioData.map (fun p => p.1)) { st with finished := true }
      hnd (fun u hu => key_lookup_isSome st.audioData u hu) hopen hids hdist
  refine ⟨?_, ?_, ?_, ?_, ?_, ?_, ?_⟩
  · rw [cleanup_db, hcount, List.length_map]
  · rw [List.length_map] at hlen
    exact hlen
  · apply filterMap_nodup_of_inj _ _ hnd hdist
    intro u hu
    obtain ⟨r, _, hrid, _⟩ := hopen u hu
    rw [← hrid]
    rfl
  · intro sid hsid
    obtain ⟨u, hu, hlu⟩ := List.mem_filterMap.mp hsid
    obtain ⟨sid2, hsid2, r1, hr1, hrid1, hrfin1, hrl1⟩ := hfin u hu
    have hsid2x : alookup st.sessionsMap u = some sid2 := hsid2
    have hss : sid2 = sid := Option.some.inj (hsid2x.symm.trans hlu)
    rw [cleanup_db]
    exact ⟨r1, hr1, hss ▸ hrid1, hrfin1, hrl1⟩
  · rw [cleanup_eventCount, hevent]
  · rw [cleanup_trace, htrace]
  · simp

/-- C7 witness: cleaning up the two-speaker sink `stC7` produces two new
finished rows and fires the completion event once. -/
theorem C7_cleanup_all_witness :
    countFinished (cleanup stC7 LeaveReason.NATURAL).db =
      countFinished stC7.db + stC7.audioData.length ∧
    (cleanup stC7 LeaveReason.NATURAL).eventCount = stC7.eventCount + 1 := by
  have h := C7_cleanup_all stC7 LeaveReason.NATURAL (by decide) (by decide) (by decide)
    (by decide)
  exact ⟨h.1, h.2.2.2.2.1⟩

end BigBrother

namespace BigBrother

/-! ### Claim C1: split behaviour of a single-speaker run -/

@[simp] theorem appendFrame_channelId (st : SinkState) (u : Nat) (d : Bytes) :
    (appendFrame st u d).channelId = st.channelId := rfl

@[simp] theorem cleanup_one_nextId (st : SinkState) (u : Nat) (reason : LeaveReason) :
    (cleanup_one st u reason).2.db.nextId = st.db.nextId := by
  unfold cleanup_one
  rcases h : alookup st.audioData u with _ | b <;> simp

theorem ensureBuffer_eq_of_none (st : SinkState) (u : Nat)
    (h : alookup st.audioData u = none) :
    ensureBuffer st u = { st with audioData := aset st.audioData u [] } := by
  unfold ensureBuffer
  rw [h]
  rfl

theorem ensureSession_smap_of_none (st : SinkState) (u : Nat)
    (h : alookup st.sessionsMap u = none) :
    (ensureSession st u).sessionsMap = aset st.sessionsMap u st.db.nextId := by
  unfold ensureSession
  rw [h]
  rfl

theorem ensureSession_sessions_of_none (st : SinkState) (u : Nat)
    (h : alookup st.sessionsMap u = none) :
    (ensureSession st u).db.sessions = st.db.sessions ++
      [{ id := st.db.nextId, channel_id := st.channelId, user_id := u,
         started_at := st.now, ended_at := none, data := none, leave_reason := none }] := by
  unfold ensureSession
  rw [h]
  rfl

theorem ensureSession_nextId_of_none (st : SinkState) (u : Nat)
    (h : alookup st.sessionsMap u = none) :
    (ensureSession st u).db.nextId = st.db.nextId + 1 := by
  unfold ensureSession
  rw [h]
  rfl

theorem ensureSession_nextId_of_some (st : SinkState) (u : Nat) (sid : Nat)
    (h : alookup st.sessionsMap u = some sid) :
    (ensureSession st u).db.nextId = st.db.nextId := by
  rw [ensureSession_of_some st u sid h]

/-- A write whose speaker already has a buffer at or above the threshold:
split, then append the triggering frame into the fresh successor state. -/
theorem write_split_result (st : SinkState) (f : Bytes) (u : Nat) (m : Nat)
    (hvc : st.vc = true) (hcache : alookup st.cache u = some true)
    (buf : Bytes) (hlook : alookup st.audioData u = some buf)
    (sid : Nat) (hsmap : alookup st.sessionsMap u = some sid)
    (hm : st.maxFileLen = some m) (h0 : 0 < m) (hsplit : m ≤ buf.length) :
    write 2 st f u =
      some (appendFrame (afterGate (cleanup_one st u LeaveReason.CONTINUED).2 u) u f) := by
  have hglook := gateCache_hit st u true hcache
  have hag : afterGate (gateCache st u).2 u = st := by
    rw [hglook]
    show afterGate st u = st
    unfold afterGate
    rw [ensureBuffer_of_some st u buf hlook, ensureSession_of_some st u sid hsmap]
  have hbufval : (alookup (afterGate (gateCache st u).2 u).audioData u).getD [] = buf := by
    rw [hag, hlook]
    rfl
  have hw := write_split 1 st f u m hvc (by rw [hglook]) hm (by rw [hbufval]; exact hsplit)
  rw [hag] at hw
  set st4 := (cleanup_one st u LeaveReason.CONTINUED).2 with hst4
  have h4vc : st4.vc = true := by rw [hst4, cleanup_one_vc]; exact hvc
  have h4c : alookup st4.cache u = some true := by rw [hst4, cleanup_one_cache]; exact hcache
  have h4b : alookup st4.audioData u = none := by
    rw [hst4, cleanup_one_erases st u _ (by rw [hlook]; rfl), alookup_aerase_self]
  have h4m : st4.maxFileLen = some m := by rw [hst4, cleanup_one_maxFileLen]; exact hm
  exact hw.trans (write_no_buffer 0 st4 f u m h4vc h4c h4b h4m h0)

/-- A write whose speaker's buffer is strictly below the threshold:
append in place. -/
theorem write_nosplit_result (st : SinkState) (f : Bytes) (u : Nat) (m : Nat)
    (hvc : st.vc = true) (hcache : alookup st.cache u = some true)
    (buf : Bytes) (hlook : alookup st.audioData u = some buf)
    (sid : Nat) (hsmap : alookup st.sessionsMap u = some sid)
    (hm : st.maxFileLen = some m) (hlt : buf.length < m) :
    write 2 st f u = some (appendFrame st u f) := by
  have hglook := gateCache_hit st u true hcache
  have hag : afterGate (gateCache st u).2 u = st := by
    rw [hglook]
    show afterGate st u = st
    unfold afterGate
    rw [ensureBuffer_of_some st u buf hlook, ensureSession_of_some st u sid hsmap]
  have hbufval : (alookup (afterGate (gateCache st u).2 u).audioData u).getD [] = buf := by
    rw [hag, hlook]
    rfl
  have hw := write_allowed_nosplit 1 st f u m hvc (by rw [hglook]) hm
    (by rw [hbufval]; exact hlt)
  rw [hag] at hw
  exact hw

end BigBrother

namespace BigBrother

/-- One `write` against a single-speaker run state simulates one `step` of
the pure split model. -/
theorem sim_step (u m ch : Nat) (segs : List Bytes) (buf : Bytes) (st : SinkState)
    (hm : 0 < m) (hsim : Sim u m ch segs buf st) (f : Bytes) :
    ∃ st2, write 2 st f u = some st2 ∧
      Sim u m ch (step m (segs, buf) f).1 (step m (segs, buf) f).2 st2 := by
  obtain ⟨hvc, hmax, hch, hcache, haudio, sid, t, rows, hsmap, hsess, hdata, hlr, hrows,
    hsid⟩ := hsim
  have hlook : alookup st.audioData u = some buf := by rw [haudio]; simp
  have hslook : alookup st.sessionsMap u = some sid := by rw [hsmap]; simp
  by_cases hsplit : m ≤ buf.length
  case pos =>
    have hstep : step m (segs, buf) f = (segs ++ [buf], f) := by
      unfold step
      rw [if_pos hsplit]
    have hw := write_split_result st f u m hvc hcache buf hlook sid hslook hmax hm hsplit
    refine ⟨_, hw, ?_⟩
    rw [hstep]
    set st4 := (cleanup_one st u LeaveReason.CONTINUED).2 with hst4
    have h4audio : st4.audioData = [] := by
      rw [hst4, cleanup_one_erases st u _ (by rw [hlook]; rfl), haudio]
      simp [aerase]
    have h4smap : st4.sessionsMap = [] := by
      rw [hst4, cleanup_one_smap_of_some st u _ buf hlook, hsmap]
      simp [aerase]
    have h4sess : st4.db.sessions = rows ++
        [{ id := sid, channel_id := ch, user_id := u, started_at := t,
           ended_at := some st.now, data := some (zlibCompress buf),
           leave_reason := some LeaveReason.CONTINUED }] := by
      rw [hst4, cleanup_one_sessions_of_some st u _ buf hlook, hslook, hsess,
        List.map_append]
      congr 1
      · apply map_update_id
        intro r hr
        have hne := (hrows r hr).2.2.2
        rw [if_neg (by simpa using hne)]
      · simp
    have h4next : st4.db.nextId = st.db.nextId := by rw [hst4, cleanup_one_nextId]
    have h4ch : st4.channelId = ch := by rw [hst4, cleanup_one_channelId]; exact hch
    have h4vc : st4.vc = true := by rw [hst4, cleanup_one_vc]; exact hvc
    have h4max : st4.maxFileLen = some m := by rw [hst4, cleanup_one_maxFileLen]; exact hmax
    have h4cache : alookup st4.cache u = some true := by
      rw [hst4, cleanup_one_cache]
      exact hcache
    have h4blook : alookup st4.audioData u = none := by rw [h4audio]; rfl
    have hB := ensureBuffer_eq_of_none st4 u h4blook
    have hBsmap : alookup (ensureBuffer st4 u).sessionsMap u = none := by
      rw [ensureBuffer_sessionsMap, h4smap]
      rfl
    have hagA : (afterGate st4 u).audioData = [(u, [])] := by
      unfold afterGate
      rw [ensureSession_audioData, hB]
      show aset st4.audioData u [] = [(u, [])]
      rw [h4audio]
      rfl
    have hagS : (afterGate st4 u).sessionsMap = [(u, st.db.nextId)] := by
      unfold afterGate
      rw [ensureSession_smap_of_none _ u hBsmap, hB]
      show aset st4.sessionsMap u st4.db.nextId = [(u, st.db.nextId)]
      rw [h4smap, h4next]
      rfl
    have hagSess : (afterGate st4 u).db.sessions = st4.db.sessions ++
        [{ id := st.db.nextId, channel_id := ch, user_id := u,
           started_at := (ensureBuffer st4 u).now, ended_at := none, data := none,
           leave_reason := none }] := by
      unfold afterGate
      rw [ensureSession_sessions_of_none _ u hBsmap]
      have eS : (ensureBuffer st4 u).db.sessions = st4.db.sessions := by
        rw [ensureBuffer_db]
      have eN : (ensureBuffer st4 u).db.nextId = st.db.nextId := by
        rw [ensureBuffer_db, h4next]
      have eC : (ensureBuffer st4 u).channelId = ch := by
        rw [ensureBuffer_channelId, h4ch]
      rw [eS, eN, eC]
    have hagNext : (afterGate st4 u).db.nextId = st.db.nextId + 1 := by
      unfold afterGate
      rw [ensureSession_nextId_of_none _ u hBsmap]
      have eN : (ensureBuffer st4 u).db.nextId = st.db.nextId := by
        rw [ensureBuffer_db, h4next]
      rw [eN]
    refine ⟨?_, ?_, ?_, ?_, ?_,
      st.db.nextId, (ensureBuffer st4 u).now, rows ++
        [{ id := sid, channel_id := ch, user_id := u, started_at := t,
           ended_at := some st.now, data := some (zlibCompress buf),
           leave_reason := some LeaveReason.CONTINUED }],
      ?_, ?_, ?_, ?_, ?_, ?_⟩
    · rw [appendFrame_vc, afterGate_vc, h4vc]
    · rw [appendFrame_maxFileLen, afterGate_maxFileLen, h4max]
    · rw [appendFrame_channelId, afterGate_channelId, h4ch]
    · rw [appendFrame_cache, afterGate_cache, h4cache]
    · show aset (afterGate st4 u).audioData u
        (((alookup (afterGate st4 u).audioData u).getD []) ++ f) = [(u, f)]
      rw [hagA]
      simp [aset]
    · rw [appendFrame_sessionsMap, hagS]
    · rw [appendFrame_db, hagSess, h4sess, List.append_assoc]
    · rw [List.map_append, hdata, List.map_append]
      rfl
    · rw [List.map_append, hlr, List.map_append]
      rfl
    · intro r hr
      rw [appendFrame_db, hagNext]
      rcases List.mem_append.mp hr with hr1 | hr2
      · obtain ⟨hu1, hf1, hlt1, hne1⟩ := hrows r hr1
        refine ⟨hu1, hf1, by omega, by omega⟩
      · rw [List.mem_singleton] at hr2
        subst hr2
        refine ⟨rfl, ⟨by simp, by simp, by simp⟩, by simpa using Nat.lt_succ_of_lt hsid,
          by simpa using Nat.ne_of_lt hsid⟩
    · rw [appendFrame_db, hagNext]
      omega
  case neg =>
    have hstep : step m (segs, buf) f = (segs, buf ++ f) := by
      unfold step
      rw [if_neg hsplit]
    have hw := write_nosplit_result st f u m hvc hcache buf hlook sid hslook hmax
      (Nat.not_le.mp hsplit)
    refine ⟨_, hw, ?_⟩
    rw [hstep]
    refine ⟨?_, ?_, ?_, ?_, ?_, sid, t, rows, ?_, ?_, hdata, hlr, ?_, ?_⟩
    · rw [appendFrame_vc, hvc]
    · rw [appendFrame_maxFileLen, hmax]
    · rw [appendFrame_channelId, hch]
    · rw [appendFrame_cache, hcache]
    · show aset st.audioData u (((alookup st.audioData u).getD []) ++ f) = [(u, buf ++ f)]
      rw [haudio]
      simp [aset]
    · rw [appendFrame_sessionsMap, hsmap]
    · rw [appendFrame_db, hsess]
    · intro r hr
      rw [appendFrame_db]
      exact hrows r hr
    · rw [appendFrame_db]
      exact hsid

end BigBrother

namespace BigBrother

theorem sumLen_nil : sumLen [] = 0 := rfl

theorem sumLen_cons (f : Bytes) (l : List Bytes) :
    sumLen (f :: l) = f.length + sumLen l := by
  simp [sumLen]

theorem sumLen_append (a b : List Bytes) : sumLen (a ++ b) = sumLen a + sumLen b := by
  simp [sumLen]

theorem length_join (l : List Bytes) : l.flatten.length = sumLen l := by
  simp [sumLen]

theorem drop_eq_getD_cons : ∀ (l : List Bytes) (j : Nat), j < l.length →
    l.drop j = l.getD j [] :: l.drop (j + 1) := by
  intro l
  induction l with
  | nil => intro j h; simp at h
  | cons a rest ih =>
    intro j h
    cases j with
    | zero => simp
    | succ k =>
      have hk : k < rest.length := by simpa using h
      have := ih k hk
      simpa using this

/-- While the buffer stays under the threshold before every frame, no
split happens: the fold appends every frame to the buffer. -/
theorem foldl_no_split (m : Nat) : ∀ (fs : List Bytes) (segs : List Bytes) (buf : Bytes),
    (∀ i, i < fs.length → buf.length + sumLen (fs.take i) < m) →
    fs.foldl (step m) (segs, buf) = (segs, buf ++ fs.flatten) := by
  intro fs
  induction fs with
  | nil =>
    intro segs buf _
    simp
  | cons f rest ih =>
    intro segs buf h
    have h0 : buf.length < m := by
      have := h 0 (by simp)
      simpa [sumLen] using this
    rw [List.foldl_cons]
    have hstep : step m (segs, buf) f = (segs, buf ++ f) := by
      unfold step
      rw [if_neg (Nat.not_le.mpr h0)]
    rw [hstep, ih segs (buf ++ f) ?_]
    · simp
    · intro i hi
      have h2 := h (i + 1) (by simpa using Nat.succ_lt_succ hi)
      rw [List.take_succ_cons, sumLen_cons] at h2
      rw [List.length_append]
      omega

theorem sumLen_take_add (l : List Bytes) (a b : Nat) :
    sumLen (l.take (a + b)) = sumLen (l.take a) + sumLen ((l.drop a).take b) := by
  rw [List.take_add, sumLen_append]

theorem sumLen_take_succ : ∀ (l : List Bytes) (j : Nat), j < l.length →
    sumLen (l.take (j + 1)) = sumLen (l.take j) + (l.getD j []).length := by
  intro l
  induction l with
  | nil => intro j h; simp at h
  | cons a rest ih =>
    intro j h
    cases j with
    | zero =>
      simp [sumLen]
    | succ k =>
      have hk : k < rest.length := by simpa using h
      rw [List.take_succ_cons, List.take_succ_cons, sumLen_cons, sumLen_cons,
        ih k hk]
      simp [Nat.add_assoc]

/-- The pure split model on a frame sequence whose prefix sums reach the
threshold exactly at index `j` (counting the check made before each frame)
and never again afterwards: exactly one split, cutting the sequence at
frame `j`. -/
theorem runSegs_split (m : Nat) (fs : List Bytes) (j : Nat)
    (hm : 0 < m) (hj : j < fs.length)
    (hbelow : ∀ i, i < j → sumLen (fs.take i) < m)
    (hreach : m ≤ sumLen (fs.take j))
    (hafter : ∀ k, k < fs.length → j < k → sumLen (fs.take k) < m + sumLen (fs.take j)) :
    runSegs m fs = ([(fs.take j).flatten], (fs.drop j).flatten) := by
  have hdrop : fs.drop j = fs.getD j [] :: fs.drop (j + 1) := drop_eq_getD_cons fs j hj
  unfold runSegs
  conv_lhs => rw [← List.take_append_drop j fs]
  rw [List.foldl_append]
  have hlen_take : (fs.take j).length = j := by
    rw [List.length_take]
    omega
  have hphase1 : (fs.take j).foldl (step m) ([], []) = ([], (fs.take j).flatten) := by
    have hns := foldl_no_split m (fs.take j) [] [] ?_
    · simpa using hns
    · intro i hi
      rw [hlen_take] at hi
      have h2 := hbelow i hi
      simp only [List.length_nil, Nat.zero_add, List.take_take,
        Nat.min_eq_left (Nat.le_of_lt hi)]
      exact h2
  rw [hphase1, hdrop, List.foldl_cons]
  have hsplit_step : step m ([], (fs.take j).flatten) (fs.getD j []) =
      ([(fs.take j).flatten], fs.getD j []) := by
    have hle : m ≤ ((fs.take j).flatten).length := by
      rw [length_join]
      exact hreach
    unfold step
    rw [if_pos hle]
    rfl
  rw [hsplit_step]
  have hphase2 := foldl_no_split m (fs.drop (j + 1)) [(fs.take j).flatten] (fs.getD j []) ?_
  · rw [hphase2]
    conv_rhs => rw [List.flatten_cons]
  · intro i hi
    have hk : j + 1 + i < fs.length := by
      rw [List.length_drop] at hi
      omega
    have h2 := hafter (j + 1 + i) hk (by omega)
    have hdc : sumLen (fs.take (j + 1 + i)) =
        sumLen (fs.take (j + 1)) + sumLen ((fs.drop (j + 1)).take i) :=
      sumLen_take_add fs (j + 1) i
    have hsucc := sumLen_take_succ fs j hj
    rw [hdc, hsucc] at h2
    omega

theorem filterMap_of_map_some {α β : Type} : ∀ (l : List α) (f : α → Option β)
    (ys : List β), l.map f = ys.map some → l.filterMap f = ys := by
  intro l
  induction l with
  | nil =>
    intro f ys h
    cases ys with
    | nil => rfl
    | cons y more => simp at h
  | cons a rest ih =>
    intro f ys h
    cases ys with
    | nil => simp at h
    | cons y more =>
      rw [List.map_cons, List.map_cons] at h
      obtain ⟨h1, h2⟩ := List.cons.inj h
      rw [List.filterMap_cons, h1, ih f more h2]

end BigBrother

namespace BigBrother

/-- The first write of the single allowed speaker on a fresh sink: one
lookup caches the allow decision, the buffer is created, a session row is
opened, and the frame lands in the buffer. -/
theorem sim_init (u m ch : Nat) (hm : 0 < m) (f : Bytes) :
    ∃ st1, write 2 (initSink (some m) ch [⟨u, true⟩]) f u = some st1 ∧
      Sim u m ch [] f st1 := by
  set st0 := initSink (some m) ch [⟨u, true⟩] with hst0
  have hc0 : alookup st0.cache u = none := rfl
  have hf0 : st0.db.users.find? (fun r => r.user_id == u) = some ⟨u, true⟩ := by
    have husers : st0.db.users = [⟨u, true⟩] := rfl
    rw [husers]
    simp [List.find?]
  have hg := gateCache_miss_present st0 u ⟨u, true⟩ hc0 hf0
  set st1 := { st0 with cache := aset st0.cache u true,
                        trace := st0.trace ++ [Op.userLookup u] } with hst1
  have hg2 : gateCache st0 u = (true, st1) := by
    rw [hg]
  have hgfst : (gateCache st0 u).1 = true := by rw [hg2]
  have h1audio : st1.audioData = [] := rfl
  have h1blook : alookup st1.audioData u = none := rfl
  have h1smap : st1.sessionsMap = [] := rfl
  have hB := ensureBuffer_eq_of_none st1 u h1blook
  have hBsmap : alookup (ensureBuffer st1 u).sessionsMap u = none := by
    rw [ensureBuffer_sessionsMap, h1smap]
    rfl
  have hagA : (afterGate st1 u).audioData = [(u, [])] := by
    unfold afterGate
    rw [ensureSession_audioData, hB]
    rfl
  have hagS : (afterGate st1 u).sessionsMap = [(u, 0)] := by
    unfold afterGate
    rw [ensureSession_smap_of_none _ u hBsmap, hB]
    rfl
  have hagSess : (afterGate st1 u).db.sessions =
      [{ id := 0, channel_id := ch, user_id := u, started_at := (ensureBuffer st1 u).now,
         ended_at := none, data := none, leave_reason := none }] := by
    unfold afterGate
    rw [ensureSession_sessions_of_none _ u hBsmap]
    rfl
  have hagNext : (afterGate st1 u).db.nextId = 1 := by
    unfold afterGate
    rw [ensureSession_nextId_of_none _ u hBsmap]
    rfl
  have hbufval : (alookup (afterGate (gateCache st0 u).2 u).audioData u).getD [] =
      ([] : Bytes) := by
    rw [hg2]
    show (alookup (afterGate st1 u).audioData u).getD [] = ([] : Bytes)
    rw [hagA]
    simp
  have hw := write_allowed_nosplit 1 st0 f u m rfl hgfst rfl
    (by rw [hbufval]; exact hm)
  rw [hg2] at hw
  have hw2 : write 2 st0 f u = some (appendFrame (afterGate st1 u) u f) := hw
  refine ⟨_, hw2, ?_, ?_, ?_, ?_, ?_, 0, (ensureBuffer st1 u).now, [], ?_, ?_, rfl, rfl,
    ?_, ?_⟩
  · rw [appendFrame_vc, afterGate_vc]
    rfl
  · rw [appendFrame_maxFileLen, afterGate_maxFileLen]
    rfl
  · rw [appendFrame_channelId, afterGate_channelId]
    rfl
  · rw [appendFrame_cache, afterGate_cache]
    show alookup (aset st0.cache u true) u = some true
    rw [alookup_aset_self]
  · show aset (afterGate st1 u).audioData u
      (((alookup (afterGate st1 u).audioData u).getD []) ++ f) = [(u, f)]
    rw [hagA]
    simp [aset]
  · rw [appendFrame_sessionsMap, hagS]
  · rw [appendFrame_db, hagSess]
    rfl
  · intro r hr
    simp at hr
  · rw [appendFrame_db, hagNext]
    omega

/-- A frame-by-frame run simulates the pure fold. -/
theorem sim_fold (u m ch : Nat) (hm : 0 < m) : ∀ (fs : List Bytes) (segs : List Bytes)
    (buf : Bytes) (st : SinkState), Sim u m ch segs buf st →
    ∃ st2, writeMany u fs st = some st2 ∧
      Sim u m ch (fs.foldl (step m) (segs, buf)).1 (fs.foldl (step m) (segs, buf)).2 st2 := by
  intro fs
  induction fs with
  | nil => intro segs buf st h; exact ⟨st, rfl, h⟩
  | cons f rest ih =>
    intro segs buf st h
    obtain ⟨st1, hw1, hsim1⟩ := sim_step u m ch segs buf st hm h f
    obtain ⟨st2, hw2, hsim2⟩ := ih _ _ st1 hsim1
    refine ⟨st2, ?_, ?_⟩
    · unfold writeMany
      rw [hw1]
      exact hw2
    · exact hsim2

/-- Finalizing the single-speaker run: the speaker's finished rows are the
split segments (reason `CONTINUED`, in order) followed by the final
buffer's session with the cleanup reason. -/
theorem sim_cleanup (u m ch : Nat) (segs : List Bytes) (buf : Bytes) (st : SinkState)
    (reason : LeaveReason) (hsim : Sim u m ch segs buf st) :
    (finishedFor u (cleanup_one st u reason).2.db).map (fun r => r.data) =
      (segs ++ [buf]).map (fun sg => some (zlibCompress sg)) ∧
    (finishedFor u (cleanup_one st u reason).2.db).map (fun r => r.leave_reason) =
      segs.map (fun _ => some LeaveReason.CONTINUED) ++ [some reason] ∧
    (finishedFor u (cleanup_one st u reason).2.db).length = segs.length + 1 := by
  obtain ⟨hvc, hmax, hch, hcache, haudio, sid, t, rows, hsmap, hsess, hdata, hlr, hrows,
    hsid⟩ := hsim
  have hlook : alookup st.audioData u = some buf := by rw [haudio]; simp
  have hslook : alookup st.sessionsMap u = some sid := by rw [hsmap]; simp
  have hsess4 : (cleanup_one st u reason).2.db.sessions = rows ++
      [{ id := sid, channel_id := ch, user_id := u, started_at := t,
         ended_at := some st.now, data := some (zlibCompress buf),
         leave_reason := some reason }] := by
    rw [cleanup_one_sessions_of_some st u reason buf hlook, hslook, hsess, List.map_append]
    congr 1
    · apply map_update_id
      intro r hr
      have hne := (hrows r hr).2.2.2
      rw [if_neg (by simpa using hne)]
    · simp
  have hfin : finishedFor u (cleanup_one st u reason).2.db = rows ++
      [{ id := sid, channel_id := ch, user_id := u, started_at := t,
         ended_at := some st.now, data := some (zlibCompress buf),
         leave_reason := some reason }] := by
    unfold finishedFor
    rw [hsess4]
    rw [List.filter_eq_self]
    intro r hr
    rcases List.mem_append.mp hr with hr1 | hr2
    · obtain ⟨hu1, hf1, _⟩ := hrows r hr1
      simp [hu1, hf1]
    · rw [List.mem_singleton] at hr2
      subst hr2
      simp [finishedRow]
  have hrlen : rows.length = segs.length := by
    have := congrArg List.length hdata
    simpa using this
  refine ⟨?_, ?_, ?_⟩
  · rw [hfin, List.map_append, hdata, List.map_append]
    rfl
  · rw [hfin, List.map_append, hlr]
    rfl
  · rw [hfin, List.length_append, hrlen]
    rfl

end BigBrother

namespace BigBrother

/-- C1, counterexample: with threshold 2, the two-frame sequence
`[[10], [20]]` (one byte each) has cumulative byte lengths 1, 2, so it
crosses the threshold exactly once — yet writing both frames for an
allowed speaker on a fresh sink and finalizing yields exactly ONE
finalized session, not two: the buffer-length check runs before a frame
is appended, so a crossing on the final frame never triggers a split. -/
theorem C1_counterexample :
    crossesOnce 2 [[10], [20]] ∧
    (writeMany 0 [[10], [20]] (initSink (some 2) 5 [⟨0, true⟩])).map
      (fun s => (finishedFor 0 (cleanup_one s 0 LeaveReason.NATURAL).2.db).length) =
      some 1 := by
  decide

/-- C1 (amended): for a single allowed speaker on a fresh sink with
positive threshold `m`, if the prefix byte sums `S i = sumLen (take i)`
reach the threshold with the first `j` frames for some `j` before the end
(`S j ≥ m`, `S i < m` for `i < j`, `j < n` — so the split fires when
frame `j` arrives), and the bytes buffered after the split never reach
the threshold again before the last frame (`S k - S j < m` for
`j < k < n`), then writing all frames and finalizing yields exactly two
finalized sessions: the first carries leave reason `CONTINUED` and the
first `j` frames, the second the cleanup reason and the remaining frames
beginning with the triggering frame `j` — which is therefore never
dropped — and the concatenation of the two decompressed payloads equals
the original input byte-for-byte. -/
theorem C1_amended (u m ch : Nat) (frames : List Bytes) (j : Nat) (reason : LeaveReason)
    (hm : 0 < m) (hj : j < frames.length)
    (hbelow : ∀ i, i < j → sumLen (frames.take i) < m)
    (hreach : m ≤ sumLen (frames.take j))
    (hafter : ∀ k, k < frames.length → j < k →
      sumLen (frames.take k) < m + sumLen (frames.take j)) :
    ∃ st, writeMany u frames (initSink (some m) ch [⟨u, true⟩]) = some st ∧
      (finishedFor u (cleanup_one st u reason).2.db).length = 2 ∧
      (finishedFor u (cleanup_one st u reason).2.db).map (fun r => r.leave_reason) =
        [some LeaveReason.CONTINUED, some reason] ∧
      (finishedFor u (cleanup_one st u reason).2.db).map (fun r => r.data) =
        [some (zlibCompress ((frames.take j).flatten)),
         some (zlibCompress ((frames.drop j).flatten))] ∧
      ((finishedFor u (cleanup_one st u reason).2.db).filterMap (fun r => r.data)).mapM
        zlibDecompress = some [(frames.take j).flatten, (frames.drop j).flatten] ∧
      (frames.take j).flatten ++ (frames.drop j).flatten = frames.flatten ∧
      (frames.drop j).flatten = frames.getD j [] ++ (frames.drop (j + 1)).flatten := by
  obtain ⟨f0, rest, rfl⟩ : ∃ f0 rest, frames = f0 :: rest := by
    cases frames with
    | nil => simp at hj
    | cons a l => exact ⟨a, l, rfl⟩
  obtain ⟨st1, hw1, hsim1⟩ := sim_init u m ch hm f0
  obtain ⟨st2, hw2, hsim2⟩ := sim_fold u m ch hm rest [] f0 st1 hsim1
  have hwm : writeMany u (f0 :: rest) (initSink (some m) ch [⟨u, true⟩]) = some st2 := by
    unfold writeMany
    rw [hw1]
    exact hw2
  have hrun : runSegs m (f0 :: rest) = rest.foldl (step m) ([], f0) := by
    unfold runSegs
    rw [List.foldl_cons]
    have hstep0 : step m (([], []) : List Bytes × Bytes) f0 = ([], f0) := by
      unfold step
      rw [if_neg (by simpa using Nat.pos_iff_ne_zero.mp hm)]
      simp
    rw [hstep0]
  have hsegs := runSegs_split m (f0 :: rest) j hm hj hbelow hreach hafter
  rw [hrun] at hsegs
  rw [hsegs] at hsim2
  obtain ⟨hdataF, hlrF, hlenF⟩ := sim_cleanup u m ch [((f0 :: rest).take j).flatten]
    ((f0 :: rest).drop j).flatten st2 reason hsim2
  refine ⟨st2, hwm, ?_, ?_, ?_, ?_, ?_, ?_⟩
  · rw [hlenF]
    rfl
  · rw [hlrF]
    rfl
  · rw [hdataF]
    rfl
  · have hfm := filterMap_of_map_some (finishedFor u (cleanup_one st2 u reason).2.db)
      (fun r => r.data)
      [zlibCompress (((f0 :: rest).take j).flatten),
       zlibCompress (((f0 :: rest).drop j).flatten)] (by rw [hdataF]; rfl)
    rw [hfm]
    rfl
  · rw [← List.flatten_append, List.take_append_drop]
  · rw [drop_eq_getD_cons _ j hj, List.flatten_cons]

/-- C1 witness: threshold 2, frames of one byte each `[[10],[20],[30]]`;
the split fires at the third frame (j = 2): exactly two finalized
sessions. -/
theorem C1_amended_witness :
    (writeMany 0 [[10], [20], [30]] (initSink (some 2) 5 [⟨0, true⟩])).map
      (fun s => (finishedFor 0 (cleanup_one s 0 LeaveReason.NATURAL).2.db).length) =
      some 2 := by
  obtain ⟨st, hw, hlen, _⟩ := C1_amended 0 2 5 [[10], [20], [30]] 2 LeaveReason.NATURAL
    (by decide) (by decide) (by decide) (by decide) (by decide)
  rw [hw]
  simp [hlen]

end BigBrother
